import Mathlib

/-!
Verification of the PEI PCIe bus enumerator and resource allocator
(`Silicon/Intel/IntelSiliconPkg/Library/PciBusPei`): a shallow embedding of
`PciResources.c`, `PciResourceHelpers.c` and `PcieBusPei.c` in Lean, together
with theorems settling the specification claims about them.

Machine integers are modelled as `Nat` with explicit reduction modulo `2^32`
(respectively `2^16`, `2^64`) at the points where the C code can overflow.
External collaborators (config-space hardware behaviour, device classifiers
from `PcieHelperLib`, the timer) are modelled as oracle parameters or oracle
fields; everything else is translated from the C sources.
-/

set_option maxRecDepth 8000

/-! ## C arithmetic helpers -/

/-- Reduction of a `Nat` to a `UINT32` value. -/
def u32 (x : Nat) : Nat := x % 4294967296

/-- UINT32 subtraction `a - b` with the C wrap-around semantics
(both arguments are first reduced to 32 bits). -/
def sub32 (a b : Nat) : Nat := (u32 a + 4294967296 - u32 b) % 4294967296

/-- C bitwise complement `~x` on a `UINT32` value. -/
def not32 (x : Nat) : Nat := 4294967295 ^^^ x

/-- C bitwise complement `~x` on a `UINT64` value. -/
def not64 (x : Nat) : Nat := 18446744073709551615 ^^^ x

/-- C bitwise complement `~x` on a `UINT16` value. -/
def not16 (x : Nat) : Nat := 65535 ^^^ x

/-! ## Data model: SBDF coordinates and resource nodes (from `PcieBusPei.h`) -/

/-- SBDF: the identity of one configuration-space function, as in the C
`SBDF` structure (the `PcieCap` field participates in the `CompareMem`
equality used by `RemoveResourceNodesBySbdf`). -/
structure SBDF where
  seg : Nat
  bus : Nat
  dev : Nat
  func : Nat
  pcieCap : Nat
deriving DecidableEq, Repr

/-- PEI_RESOURCE_TYPE from `PcieBusPei.h`: `IoResource = BIT0`,
`MemResource = BIT1`, `IoAperture = BIT2`, `MemAperture = BIT3`. -/
inductive PeiResourceType where
  | ioRes
  | memRes
  | ioAp
  | memAp
deriving DecidableEq, Repr

/-- The bitmask value of a resource type, as used in the C `ResType & Mask`
tests. -/
def PeiResourceType.mask : PeiResourceType → Nat
  | .ioRes => 1
  | .memRes => 2
  | .ioAp => 4
  | .memAp => 8

/-- PEI_RESOURCE_NODE. `device` stands for the `Device` back-pointer: nodes
owned by the same `PCI_DEVICE_PRIVATE_DATA` carry the same `SBDF`. -/
structure PeiResourceNode where
  bar : Nat
  length : Nat
  offset : Nat
  alignment : Nat
  device : SBDF
  resType : PeiResourceType
deriving DecidableEq, Repr

/-- Mask selecting the memory class `(MemResource | MemAperture)`. -/
def memMask : Nat := 2 ||| 8

/-- Mask selecting the I/O class `(IoResource | IoAperture)`. -/
def ioMask : Nat := 1 ||| 4

/-- Whether a node matches a `PEI_RESOURCE_TYPE` bitmask
(the C test `Resource->ResType & ResourceType`). -/
def nodeMatches (r : PeiResourceNode) (mask : Nat) : Bool :=
  r.resType.mask &&& mask ≠ 0

/-! ## `BridgeSortResourceList` (PciResourceHelpers.c) -/

/-- The body of one bubble pass: `cur` is the node currently being compared
against the head of the remaining list; a swap emits the bigger node and
keeps comparing `cur` against the rest (the C loop re-compares the swapped
pair, which never swaps again, and then proceeds identically). -/
def bubblePassGo (cur : PeiResourceNode) : List PeiResourceNode → List PeiResourceNode × Bool
  | [] => ([cur], false)
  | b :: rest =>
    if b.length > cur.length then
      let p := bubblePassGo cur rest
      (b :: p.1, true)
    else
      let p := bubblePassGo b rest
      (cur :: p.1, p.2)

/-- One pass of the bubble sort over the resource list: adjacent nodes are
swapped when the second has the strictly larger `Length`; the Boolean records
whether any swap happened. -/
def bubblePass : List PeiResourceNode → List PeiResourceNode × Bool
  | [] => ([], false)
  | a :: rest => bubblePassGo a rest

/-- The do-while of `BridgeSortResourceList`, bounded by a pass budget.
A bubble sort of an `n`-element list reports no swap after at most `n + 1`
passes, so the budget used in `bridgeSortResourceList` never cuts it short. -/
def bubbleLoop : Nat → List PeiResourceNode → List PeiResourceNode
  | 0, l => l
  | n + 1, l =>
    let p := bubblePass l
    if p.2 then bubbleLoop n p.1 else p.1

/-- BridgeSortResourceList: sorts a bridge resource list in descending order
of `Length`. -/
def bridgeSortResourceList (l : List PeiResourceNode) : List PeiResourceNode :=
  bubbleLoop (l.length + 1) l

/-! ## The offset-assignment passes of `AlignResourceTree` (PciResources.c) -/

/-- One offset-assignment pass of `AlignResourceTree` over the nodes matching
`mask`, mirroring the C loop: the first matching node keeps its offset; every
subsequent matching node gets `prev.Offset + prev.Length`, and when
`Offset & (Length - 1)` is non-zero the offset is masked down with
`~(Length - 1)` and bumped by `Length`.  All arithmetic is UINT32.
`prevEnd` carries `Resource1->Offset + Resource1->Length`. -/
def assignOffsets (mask : Nat) (prevEnd : Option Nat) :
    List PeiResourceNode → List PeiResourceNode
  | [] => []
  | r :: rest =>
    if nodeMatches r mask then
      match prevEnd with
      | none => r :: assignOffsets mask (some (u32 (r.offset + r.length))) rest
      | some e =>
        let lm1 := sub32 r.length 1
        let o1 := if e &&& lm1 ≠ 0 then u32 ((e &&& not32 lm1) + r.length) else e
        let r' := { r with offset := o1 }
        r' :: assignOffsets mask (some (u32 (o1 + r.length))) rest
    else
      r :: assignOffsets mask prevEnd rest

/-- The per-bridge body of `AlignResourceTree`: sort, then assign offsets to
the memory-class nodes, then to the I/O-class nodes. -/
def alignBridgeResources (l : List PeiResourceNode) : List PeiResourceNode :=
  assignOffsets ioMask none (assignOffsets memMask none (bridgeSortResourceList l))

/-! ## Aperture synthesis of `AlignResourceTree` -/

/-- BridgeGetFirstResourceNode, on the list representation. -/
def bridgeGetFirstResourceNode (l : List PeiResourceNode) (mask : Nat) :
    Option PeiResourceNode :=
  l.find? (fun r => nodeMatches r mask)

/-- BridgeGetLastResourceNode, on the list representation (the C helper
iterates `BridgeGetNextResourceNode` to the end, i.e. the last match). -/
def bridgeGetLastResourceNode (l : List PeiResourceNode) (mask : Nat) :
    Option PeiResourceNode :=
  (l.filter (fun r => nodeMatches r mask)).getLast?

/-- The memory-aperture node synthesised on the parent by `AlignResourceTree`:
`Length = LastResource->Offset + LastResource->Length`, rounded with
`(Length & 0xFFF00000) + 0x100000` when `Length & 0x000FFFFF` is non-zero;
`Alignment = MAX (FirstResource->Alignment, Length - 1)`. -/
def mkMemAperture (bridgeDevice : SBDF) (l : List PeiResourceNode) :
    Option PeiResourceNode :=
  match bridgeGetLastResourceNode l memMask, bridgeGetFirstResourceNode l memMask with
  | some lastR, some firstR =>
    let len0 := u32 (lastR.offset + lastR.length)
    let len1 := if len0 &&& 0xFFFFF ≠ 0 then u32 ((len0 &&& 0xFFF00000) + 0x100000) else len0
    some { bar := 0, length := len1, offset := 0,
           alignment := max firstR.alignment (sub32 len1 1),
           device := bridgeDevice, resType := .memAp }
  | _, _ => none

/-- The I/O-aperture node synthesised on the parent by `AlignResourceTree`:
`Length = LastResource->Offset + LastResource->Length`, rounded with
`(Length & 0xF000) + 0x1000` when `Length & 0x0FFF` is non-zero;
`Alignment = MAX (FirstResource->Alignment, Length - 1)`. -/
def mkIoAperture (bridgeDevice : SBDF) (l : List PeiResourceNode) :
    Option PeiResourceNode :=
  match bridgeGetLastResourceNode l ioMask, bridgeGetFirstResourceNode l ioMask with
  | some lastR, some firstR =>
    let len0 := u32 (lastR.offset + lastR.length)
    let len1 := if len0 &&& 0xFFF ≠ 0 then u32 ((len0 &&& 0xF000) + 0x1000) else len0
    some { bar := 0, length := len1, offset := 0,
           alignment := max firstR.alignment (sub32 len1 1),
           device := bridgeDevice, resType := .ioAp }
  | _, _ => none

/-! ## EFI status values returned by the embedded operations -/

/-- The subset of EFI_STATUS values produced by the embedded functions. -/
inductive EfiStatus where
  | success
  | outOfResources
  | unsupported
  | invalidParameter
  | timeout
deriving DecidableEq, Repr

/-! ## P2P bridge tree and the programming passes (PciResources.c) -/

/-- P2P_BRIDGE: the resource tree.  `device` is the bridge's own
`PCI_DEVICE_PRIVATE_DATA` identity; `resources` is `ResourceListHead`,
`children` is `ChildBridgeListHead` in list order. -/
inductive P2PBridge where
  | node (device : SBDF) (resources : List PeiResourceNode) (children : List P2PBridge)

/-- Device identity of a bridge. -/
def P2PBridge.device : P2PBridge → SBDF
  | .node d _ _ => d

/-- Resource list of a bridge. -/
def P2PBridge.resources : P2PBridge → List PeiResourceNode
  | .node _ r _ => r

/-- Child bridges of a bridge. -/
def P2PBridge.children : P2PBridge → List P2PBridge
  | .node _ _ c => c

/-- Observable actions of the programming passes: 32-bit config writes of BAR
registers, 32-bit config writes of bridge window registers, and the recursive
descents with their `(base, limit)` arguments. -/
inductive ApplyEvent where
  | barWrite (device : SBDF) (cfgOffset value : Nat)
  | windowWrite (device : SBDF) (cfgOffset value : Nat)
  | enterBridge (device : SBDF) (base limit : Nat)
deriving DecidableEq, Repr

/-- UINT32 evaluation of the C expression `x - 1` where `x` is the given sum. -/
def dec32 (x : Nat) : Nat := (x + 4294967295) % 4294967296

/-- The loop body of `ApplyMemResources` over this bridge's resource list.
Nodes are visited through `BridgeGetFirst/NextResourceNode` with mask
`(MemResource | MemAperture)`, i.e. the matching subsequence in list order;
`recur` is the recursive call for apertures.  For an aperture the bridge
memory base/limit register (offset 0x20) receives
`((MemBase+Offset) >> 16) | ((MemBase+Offset+Length-1) & 0xFFFF0000)` and the
child whose `Device` equals the aperture's owner is entered with the range
`(MemBase+Offset, MemBase+Offset+Length-1)`.  A failed budget check or a
failed recursion stops the walk. -/
def applyMemList (recur : P2PBridge → Nat → Nat → EfiStatus × List ApplyEvent)
    (children : List P2PBridge) (memBase memLimit : Nat) :
    List PeiResourceNode → EfiStatus × List ApplyEvent
  | [] => (.success, [])
  | r :: rest =>
    if r.resType.mask &&& 2 ≠ 0 then
      let reg := u32 (memBase + r.offset)
      let ev := ApplyEvent.barWrite r.device (0x10 + r.bar * 4) reg
      if dec32 (memBase + r.offset + r.length) > memLimit then
        (.outOfResources, [ev])
      else
        let p := applyMemList recur children memBase memLimit rest
        (p.1, ev :: p.2)
    else if r.resType.mask &&& 8 ≠ 0 then
      let reg := (u32 (memBase + r.offset)) >>> 16 |||
                 (dec32 (memBase + r.offset + r.length) &&& 0xFFFF0000)
      let ev := ApplyEvent.windowWrite r.device 0x20 reg
      match children.find? (fun c => c.device == r.device) with
      | some child =>
        let q := recur child (u32 (memBase + r.offset)) (dec32 (memBase + r.offset + r.length))
        let ev2 := ApplyEvent.enterBridge child.device (u32 (memBase + r.offset))
                     (dec32 (memBase + r.offset + r.length))
        if q.1 ≠ EfiStatus.success then
          (q.1, ev :: ev2 :: q.2)
        else
          let p := applyMemList recur children memBase memLimit rest
          (p.1, ev :: ev2 :: (q.2 ++ p.2))
      | none =>
        -- C walks off the child list and dereferences a stale pointer here;
        -- trees produced by enumeration always contain the matching child.
        let p := applyMemList recur children memBase memLimit rest
        (p.1, ev :: p.2)
    else
      applyMemList recur children memBase memLimit rest

/-- ApplyMemResources, with a recursion-depth budget (`fuel` bounds the bridge
tree depth; the C recursion is bounded by the actual tree). -/
def applyMemResources : Nat → P2PBridge → Nat → Nat → EfiStatus × List ApplyEvent
  | 0, _, _, _ => (.success, [])
  | fuel + 1, t, memBase, memLimit =>
    applyMemList (applyMemResources fuel) t.children memBase memLimit t.resources

/-- The loop body of `ApplyIoResources`, mask `(IoResource | IoAperture)`.
For an aperture the bridge I/O base/limit register (offset 0x1C) receives
`((IoBase+Offset) >> 8) | ((IoBase+Offset+Length-1) & 0xFF00)` and the child
is entered with the range `(IoBase + Offset, IoBase + Length - 1)` — exactly
as in the C source, whose recursive call omits `Offset` in the limit. -/
def applyIoList (recur : P2PBridge → Nat → Nat → EfiStatus × List ApplyEvent)
    (children : List P2PBridge) (ioBase ioLimit : Nat) :
    List PeiResourceNode → EfiStatus × List ApplyEvent
  | [] => (.success, [])
  | r :: rest =>
    if r.resType.mask &&& 1 ≠ 0 then
      let reg := u32 (ioBase + r.offset)
      let ev := ApplyEvent.barWrite r.device (0x10 + r.bar * 4) reg
      if dec32 (ioBase + r.offset + r.length) > ioLimit then
        (.outOfResources, [ev])
      else
        let p := applyIoList recur children ioBase ioLimit rest
        (p.1, ev :: p.2)
    else if r.resType.mask &&& 4 ≠ 0 then
      let reg := (u32 (ioBase + r.offset)) >>> 8 |||
                 (dec32 (ioBase + r.offset + r.length) &&& 0xFF00)
      let ev := ApplyEvent.windowWrite r.device 0x1C reg
      match children.find? (fun c => c.device == r.device) with
      | some child =>
        let q := recur child (u32 (ioBase + r.offset)) (dec32 (ioBase + r.length))
        let ev2 := ApplyEvent.enterBridge child.device (u32 (ioBase + r.offset))
                     (dec32 (ioBase + r.length))
        if q.1 ≠ EfiStatus.success then
          (q.1, ev :: ev2 :: q.2)
        else
          let p := applyIoList recur children ioBase ioLimit rest
          (p.1, ev :: ev2 :: (q.2 ++ p.2))
      | none =>
        let p := applyIoList recur children ioBase ioLimit rest
        (p.1, ev :: p.2)
    else
      applyIoList recur children ioBase ioLimit rest

/-- ApplyIoResources, with a recursion-depth budget. -/
def applyIoResources : Nat → P2PBridge → Nat → Nat → EfiStatus × List ApplyEvent
  | 0, _, _, _ => (.success, [])
  | fuel + 1, t, ioBase, ioLimit =>
    applyIoList (applyIoResources fuel) t.children ioBase ioLimit t.resources

/-! ## InitResources (PciResources.c) -/

/-- The two window-register writes `InitResources` performs on one non-root
bridge: `(MemLimit >> 16) | (MemLimit & 0xFFFF0000)` to the memory base/limit
register and `(IoLimit >> 8) | (IoLimit & 0xFF00)` to the I/O base/limit
register. -/
def bridgeWindowInitWrites (device : SBDF) (memLimit ioLimit : Nat) : List ApplyEvent :=
  [ApplyEvent.windowWrite device 0x20 ((memLimit >>> 16) ||| (memLimit &&& 0xFFFF0000)),
   ApplyEvent.windowWrite device 0x1C ((ioLimit >>> 8) ||| (ioLimit &&& 0xFF00))]

/-- InitResources: recursively visits children first, then writes the window
registers of this bridge when it has a parent (`hasParent`). -/
def initResources : Nat → Bool → P2PBridge → Nat → Nat → List ApplyEvent
  | 0, _, _, _, _ => []
  | fuel + 1, hasParent, t, memLimit, ioLimit =>
    (t.children.map (fun c => initResources fuel true c memLimit ioLimit)).flatten ++
      (if hasParent then bridgeWindowInitWrites t.device memLimit ioLimit else [])

/-- The devices of the non-root bridges of a tree, in the order
`InitResources` visits them (children first, then self). -/
def nonRootBridgeDevices : Nat → Bool → P2PBridge → List SBDF
  | 0, _, _ => []
  | fuel + 1, hasParent, t =>
    (t.children.map (fun c => nonRootBridgeDevices fuel true c)).flatten ++
      (if hasParent then [t.device] else [])

/-- The 16-bit base field of the bridge memory base/limit register. -/
def mblBaseField (v : Nat) : Nat := v &&& 0xFFFF

/-- The 16-bit limit field of the bridge memory base/limit register. -/
def mblLimitField (v : Nat) : Nat := v >>> 16

/-- The 8-bit base field of the bridge I/O base/limit register. -/
def ioblBaseField (v : Nat) : Nat := v &&& 0xFF

/-- The 8-bit limit field of the bridge I/O base/limit register. -/
def ioblLimitField (v : Nat) : Nat := (v >>> 8) &&& 0xFF

/-! ## The attribute state machine (`PciBusAttributes`, PcieBusPei.c) -/

/-- The mutable per-device state seen by `PciBusAttributes`: the `Supports`
and `Attributes` masks of `PCI_DEVICE_PRIVATE_DATA` plus the device's config
command register (accessed through `Pci.Read`/`Pci.Write`).  `attrs` is the C
`Attributes` field. -/
structure PciDevRec where
  supports : Nat
  attrs : Nat
  command : Nat
deriving DecidableEq, Repr

/-- EFI_PCI_DEVICE_ENABLE = ATTRIBUTE_IO | ATTRIBUTE_MEMORY |
ATTRIBUTE_BUS_MASTER. -/
def kDeviceEnable : Nat := 0x700

/-- The Enable/Disable tail of `PciBusAttributes`.  The device is `d`; its
`Parent` chain is `ancestors` (root last, `Parent == NULL` after the final
element).  Returns the status and the updated chain.  Mirrors the source:
DEVICE_ENABLE containment narrows attrs by `Supports`; VGA conflicts and
non-subset attrs fail with Unsupported; a parentless device returns success
before touching any state; otherwise the command register and `Attributes`
are updated and Enable recurses into the parent with the IO/MEM/BUS_MASTER
bits stripped (Disable does not recurse and returns the write's status). -/
def attrEnableDisable (isEnable : Bool) :
    PciDevRec → List PciDevRec → Nat → EfiStatus × PciDevRec × List PciDevRec
  | d, ancestors, attrs0 =>
    let attrs1 := if attrs0 &&& kDeviceEnable = kDeviceEnable then attrs0 &&& d.supports else attrs0
    if attrs1 &&& 0x14 ≠ 0 ∧ attrs1 &&& 0x60000 ≠ 0 then
      (.unsupported, d, ancestors)
    else if d.supports &&& attrs1 ≠ attrs1 then
      (.unsupported, d, ancestors)
    else
      match ancestors with
      | [] => (.success, d, [])
      | parent :: rest =>
        let cmd := (if attrs1 &&& 0x100 ≠ 0 then 1 else 0) |||
                   (if attrs1 &&& 0x200 ≠ 0 then 2 else 0) |||
                   (if attrs1 &&& 0x400 ≠ 0 then 4 else 0)
        let upstream := attrs1 &&& not64 kDeviceEnable
        if isEnable then
          let d' := { d with command := d.command ||| cmd, attrs := d.attrs ||| attrs1 }
          let q := attrEnableDisable true parent rest upstream
          (q.1, d', q.2.1 :: q.2.2)
        else
          let d' := { d with command := d.command &&& not16 cmd, attrs := d.attrs &&& not64 attrs1 }
          (.success, d', parent :: rest)

/-- The attribute operations of `PciBusAttributes`. -/
inductive AttrOp where
  | opGet
  | opSupported
  | opSet
  | opEnable
  | opDisable
deriving DecidableEq, Repr

/-- PciBusAttributes.  The `Option Nat` is the `*Result` output (used by Get
and Supported).  Set performs Enable followed by
Disable `(~Attributes) & Supports`, turning any failure into Unsupported. -/
def pciBusAttributes (op : AttrOp) (d : PciDevRec) (ancestors : List PciDevRec)
    (attrs : Nat) : EfiStatus × Option Nat × PciDevRec × List PciDevRec :=
  match op with
  | .opGet => (.success, some d.attrs, d, ancestors)
  | .opSupported => (.success, some d.supports, d, ancestors)
  | .opEnable =>
    let q := attrEnableDisable true d ancestors attrs
    (q.1, none, q.2.1, q.2.2)
  | .opDisable =>
    let q := attrEnableDisable false d ancestors attrs
    (q.1, none, q.2.1, q.2.2)
  | .opSet =>
    let q := attrEnableDisable true d ancestors attrs
    if q.1 ≠ EfiStatus.success then
      (.unsupported, none, q.2.1, q.2.2)
    else
      let q2 := attrEnableDisable false q.2.1 q.2.2 (not64 attrs &&& q.2.1.supports)
      if q2.1 ≠ EfiStatus.success then
        (.unsupported, none, q2.2.1, q2.2.2)
      else
        (.success, none, q2.2.1, q2.2.2)

/-- Legacy-VGA/16-bit-VGA conflict: a legacy VGA flag
(VGA_IO = 0x10 or VGA_PALETTE_IO = 0x4) together with a 16-bit one
(VGA_IO_16 = 0x40000 or VGA_PALETTE_IO_16 = 0x20000). -/
def vgaConflict (a : Nat) : Prop := a &&& 0x14 ≠ 0 ∧ a &&& 0x60000 ≠ 0

instance (a : Nat) : Decidable (vgaConflict a) := by
  unfold vgaConflict; infer_instance

/-- Bitmask containment `a ⊆ s` as the C subset test `(s & a) == a`. -/
def isSubsetOf (a s : Nat) : Prop := s &&& a = a

instance (a s : Nat) : Decidable (isSubsetOf a s) := by
  unfold isSubsetOf; infer_instance

/-- The attrs adjustment the code performs: if attrs contains all of
DEVICE_ENABLE it is intersected with `supports`. -/
def adjustAttrs (s a : Nat) : Nat :=
  if a &&& kDeviceEnable = kDeviceEnable then a &&& s else a

/-- The verdict the claim predicts for Enable/Disable: attrs equal to
DEVICE_ENABLE are replaced with the full `supports` mask, and the operation
fails iff the result has a VGA conflict or is not a subset of `supports`. -/
def claimC7Unsupported (s a : Nat) : Prop :=
  vgaConflict (if a = kDeviceEnable then s else a) ∨
    ¬ isSubsetOf (if a = kDeviceEnable then s else a) s

instance (s a : Nat) : Decidable (claimC7Unsupported s a) := by
  unfold claimC7Unsupported; infer_instance

/-! ## The poll loops (`PciBusPollMem` / `PciBusPollIo`, PcieBusPei.c) -/

/-- Result of a poll: final status, the last value stored through `Result`,
and the number of `MicroSecondDelay (10)` stalls executed. -/
structure PollOut where
  status : EfiStatus
  result : Nat
  stalls : Nat
deriving DecidableEq, Repr

/-- The do-while loop shared by `PciBusPollMem` and `PciBusPollIo`: stall
10 us, re-read (`reads i` is the value delivered by the i-th read of the
location, index 0 being the initial read), succeed on `(v & Mask) == Value`,
fail with Timeout once `Delay <= 100`, otherwise deduct 100 and continue. -/
def pciPollLoop (reads : Nat → Nat) (mask value : Nat) (i delay : Nat) :
    PollOut :=
  let v := reads i
  if v &&& mask = value then ⟨.success, v, i⟩
  else if delay ≤ 100 then ⟨.timeout, v, i⟩
  else pciPollLoop reads mask value (i + 1) (delay - 100)
termination_by delay
decreasing_by simp_wf; omega

/-- PciBusPollMem: one initial read; immediate success if it matches or
`Delay == 0`; otherwise the stall/re-read loop.  `reads` abstracts
`PciBusMemRead` of width `Width` at the polled location. -/
def pciBusPollMem (reads : Nat → Nat) (mask value delay : Nat) : PollOut :=
  let v0 := reads 0
  if v0 &&& mask = value ∨ delay = 0 then ⟨.success, v0, 0⟩
  else pciPollLoop reads mask value 1 delay

/-- PciBusPollIo: textually identical to `PciBusPollMem` with the I/O read
in place of the MMIO read. -/
def pciBusPollIo (reads : Nat → Nat) (mask value delay : Nat) : PollOut :=
  let v0 := reads 0
  if v0 &&& mask = value ∨ delay = 0 then ⟨.success, v0, 0⟩
  else pciBusPollIo.loop reads mask value 1 delay
where loop (reads : Nat → Nat) (mask value : Nat) (i delay : Nat) : PollOut :=
  let v := reads i
  if v &&& mask = value then ⟨.success, v, i⟩
  else if delay ≤ 100 then ⟨.timeout, v, i⟩
  else loop reads mask value (i + 1) (delay - 100)
termination_by delay
decreasing_by simp_wf; omega

/-- Closed-form model of both poll routines, derived from the claim: with a
non-matching first read and non-zero delay, the loop may perform
`(delay - 1) / 100 + 1` stalled re-reads; it succeeds at the first matching
read index, and times out on the last allowed read otherwise. -/
def pollClosedForm (reads : Nat → Nat) (mask value delay : Nat) : PollOut :=
  if reads 0 &&& mask = value ∨ delay = 0 then ⟨.success, reads 0, 0⟩
  else
    let allowed := (delay - 1) / 100 + 1
    match (List.range' 1 allowed).find? (fun i => reads i &&& mask = value) with
    | some k => ⟨.success, reads k, k⟩
    | none => ⟨.timeout, reads allowed, allowed⟩

/-! ## The per-device access facade (PcieBusPei.c) -/

/-- The access widths handled by the C switch statements
(`EfiPciIoWidthUint8/16/32`; any other width falls through with no access). -/
inductive PciWidth where
  | w8
  | w16
  | w32
deriving DecidableEq, Repr

/-- The C `for (Index = 0; Index < Count; Index++)` access loop: at each
iteration one device access is made at `addr` (the C address expression does
not mention `Index`) while `val Index` is the buffer slot involved.  Returns
the `(address, value)` trace in iteration order. -/
def accessLoop (addr : Nat) (val : Nat → Nat) : Nat → Nat → List (Nat × Nat)
  | _, 0 => []
  | i, n + 1 => (addr, val i) :: accessLoop addr val (i + 1) n

/-- Device address used by `PciBusMemRead`/`PciBusMemWrite`:
`(PciSegmentRead32 (CfgBase + 0x10 + 4*BarIndex) & 0xFFFFFFF0) + (UINT32)Offset`
with UINT32 addition. -/
def memBarAddr (cfg32 : Nat → Nat) (cfgBase barIndex offset : Nat) : Nat :=
  u32 ((u32 (cfg32 (cfgBase + (0x10 + 4 * barIndex))) &&& 0xFFFFFFF0) + u32 offset)

/-- Device address used by `PciBusIoRead`/`PciBusIoWrite` (low 2 bits of the
BAR masked instead of the low 4). -/
def ioBarAddr (cfg32 : Nat → Nat) (cfgBase barIndex offset : Nat) : Nat :=
  u32 ((u32 (cfg32 (cfgBase + (0x10 + 4 * barIndex))) &&& 0xFFFFFFFC) + u32 offset)

/-- Device address used by `PciBusConfigRead`/`PciBusConfigWrite`:
`PciCfgBase + Offset` in UINT64. -/
def cfgAddr (cfgBase offset : Nat) : Nat :=
  (cfgBase + offset) % 18446744073709551616

/-- PciBusMemRead: `Count` MMIO reads of the selected width, all at
`memBarAddr`; `mm` is the MMIO read collaborator. -/
def pciBusMemRead (cfg32 : Nat → Nat) (mm : PciWidth → Nat → Nat) (cfgBase : Nat)
    (width : PciWidth) (barIndex offset count : Nat) : List (Nat × Nat) :=
  let addr := memBarAddr cfg32 cfgBase barIndex offset
  match width with
  | .w8 => accessLoop addr (fun _ => mm .w8 addr) 0 count
  | .w16 => accessLoop addr (fun _ => mm .w16 addr) 0 count
  | .w32 => accessLoop addr (fun _ => mm .w32 addr) 0 count

/-- PciBusMemWrite: `Count` MMIO writes, all at `memBarAddr`, taking values
from successive slots of the caller's buffer `buf`. -/
def pciBusMemWrite (cfg32 : Nat → Nat) (cfgBase : Nat)
    (width : PciWidth) (barIndex offset count : Nat) (buf : Nat → Nat) :
    List (Nat × Nat) :=
  let addr := memBarAddr cfg32 cfgBase barIndex offset
  match width with
  | .w8 => accessLoop addr buf 0 count
  | .w16 => accessLoop addr buf 0 count
  | .w32 => accessLoop addr buf 0 count

/-- PciBusIoRead. -/
def pciBusIoRead (cfg32 : Nat → Nat) (pio : PciWidth → Nat → Nat) (cfgBase : Nat)
    (width : PciWidth) (barIndex offset count : Nat) : List (Nat × Nat) :=
  let addr := ioBarAddr cfg32 cfgBase barIndex offset
  match width with
  | .w8 => accessLoop addr (fun _ => pio .w8 addr) 0 count
  | .w16 => accessLoop addr (fun _ => pio .w16 addr) 0 count
  | .w32 => accessLoop addr (fun _ => pio .w32 addr) 0 count

/-- PciBusIoWrite. -/
def pciBusIoWrite (cfg32 : Nat → Nat) (cfgBase : Nat)
    (width : PciWidth) (barIndex offset count : Nat) (buf : Nat → Nat) :
    List (Nat × Nat) :=
  let addr := ioBarAddr cfg32 cfgBase barIndex offset
  match width with
  | .w8 => accessLoop addr buf 0 count
  | .w16 => accessLoop addr buf 0 count
  | .w32 => accessLoop addr buf 0 count

/-- PciBusConfigRead: `Count` config reads at `PciCfgBase + Offset`. -/
def pciBusConfigRead (cfgAt : PciWidth → Nat → Nat) (cfgBase : Nat)
    (width : PciWidth) (offset count : Nat) : List (Nat × Nat) :=
  let addr := cfgAddr cfgBase offset
  match width with
  | .w8 => accessLoop addr (fun _ => cfgAt .w8 addr) 0 count
  | .w16 => accessLoop addr (fun _ => cfgAt .w16 addr) 0 count
  | .w32 => accessLoop addr (fun _ => cfgAt .w32 addr) 0 count

/-- PciBusConfigWrite. -/
def pciBusConfigWrite (cfgBase : Nat)
    (width : PciWidth) (offset count : Nat) (buf : Nat → Nat) :
    List (Nat × Nat) :=
  let addr := cfgAddr cfgBase offset
  match width with
  | .w8 => accessLoop addr buf 0 count
  | .w16 => accessLoop addr buf 0 count
  | .w32 => accessLoop addr buf 0 count

/-! ## Resource discovery (`EnumerateBridgeResources`, PciResources.c) -/

/-- Configuration-space key: `SbdfToBase` depends on segment, bus, device and
function only. -/
structure BDF where
  seg : Nat
  bus : Nat
  dev : Nat
  func : Nat
deriving DecidableEq, Repr

/-- The BDF part of an SBDF. -/
def SBDF.bdf (s : SBDF) : BDF := ⟨s.seg, s.bus, s.dev, s.func⟩

/-- The state of one configuration-space function, together with the oracle
fields standing for the external collaborators of `PcieHelperLib`:
`present` (`IsDevicePresent`), `isBridge` (`GetDeviceType` is upstream or
downstream port), `essential` (the class-code test of
`PciIsDeviceEssential`), `multiFn` (`IsMultifunctionDevice`), `pcieCap`
(`PcieBaseFindCapId`).  `secBus` is the secondary-bus register (offset 0x19),
`command` the command register (offset 0x04), `bars i` the BAR dword at
offset `0x10 + 4*i`, and `probe i` the value the hardware returns once
all-ones have been written to BAR `i` (none of these registers alias). -/
structure FnState where
  present : Bool
  isBridge : Bool
  essential : Bool
  multiFn : Bool
  pcieCap : Nat
  secBus : Nat
  command : Nat
  bars : Nat → Nat
  probe : Nat → Nat

/-- IsDeviceDecodingResources (PciResourceHelpers.c): the command register
has `EFI_PCI_COMMAND_MEMORY_SPACE | EFI_PCI_COMMAND_IO_SPACE` (= 3)
asserted. -/
def isDeviceDecodingResources (fn : FnState) : Bool := fn.command &&& 3 ≠ 0

/-- Writing all-ones to BAR `i` of function `b`: the register subsequently
reads back as the hardware's size mask `probe i`. -/
def setBarReg (cfg : BDF → FnState) (b : BDF) (i : Nat) : BDF → FnState :=
  fun t =>
    if t = b then
      { cfg b with bars := fun j => if j = i then (cfg b).probe j else (cfg b).bars j }
    else cfg t

/-- The 32-bit memory BAR size computation
`~(BarSizeValue & (~0xF)) + 1` in UINT32 arithmetic. -/
def memBarSize (barSizeValue : Nat) : Nat :=
  u32 (not32 (barSizeValue &&& not32 0xF) + 1)

/-- The I/O BAR size computation `(UINT16)~(BarSizeValue & (~BIT0)) + 1`. -/
def ioBarSize (barSizeValue : Nat) : Nat :=
  (not32 (barSizeValue &&& not32 1) &&& 0xFFFF) + 1

/-- State threaded through the BAR loop of `EnumerateBridgeResources`:
the configuration space, the owning bridge's resource list, the
`SkipNextBar` flag, the indices already given the all-ones probe, and
whether the device has been abandoned (only a 64-bit BAR larger than 2 GiB
sets this; it models the `break` out of the loop plus the cleanup). -/
structure ProbeSt where
  cfg : BDF → FnState
  list : List PeiResourceNode
  skip : Bool
  probed : List Nat
  abandoned : Bool

/-- One iteration of the BAR loop at index `i` for function `sbdf`:
honour `SkipNextBar`; otherwise save the BAR value, write all-ones, read
back; an unchanged value means an unimplemented BAR; bit0 selects an I/O
BAR; for a memory BAR with bit2 (64-bit) a size of at most `SIZE_2GB`
(0x80000000) sets `SkipNextBar` while a larger size removes this device's
nodes (`RemoveResourceNodesBySbdf`) and abandons the device; implemented
BARs append a node with `Length = (UINT32) BarSize`,
`Alignment = Length - 1`. -/
def probeStep (sbdf : SBDF) (st : ProbeSt) (i : Nat) : ProbeSt :=
  if st.skip then { st with skip := false }
  else
    let fn := st.cfg sbdf.bdf
    let barValue := fn.bars i
    let barSizeValue := fn.probe i
    let st' := { st with cfg := setBarReg st.cfg sbdf.bdf i, probed := st.probed ++ [i] }
    if barValue = barSizeValue then st'
    else if barValue &&& 1 ≠ 0 then
      let size := ioBarSize barSizeValue
      { st' with list := st'.list ++ [⟨i, u32 size, 0, sub32 size 1, sbdf, .ioRes⟩] }
    else
      let size := memBarSize barSizeValue
      if barValue &&& 4 ≠ 0 then
        if size ≤ 0x80000000 then
          { st' with skip := true,
                     list := st'.list ++ [⟨i, size, 0, sub32 size 1, sbdf, .memRes⟩] }
        else
          { st' with abandoned := true,
                     list := st'.list.filter (fun r => r.device != sbdf) }
      else
        { st' with list := st'.list ++ [⟨i, size, 0, sub32 size 1, sbdf, .memRes⟩] }

/-- The BAR loop over a list of indices; `abandoned` models the `break`. -/
def probeBars (sbdf : SBDF) : List Nat → ProbeSt → ProbeSt
  | [], st => st
  | i :: rest, st =>
    if st.abandoned then st else probeBars sbdf rest (probeStep sbdf st i)

/-- The whole BAR loop of one device: indices `0 .. BarIndexLimit`,
starting with `SkipNextBar = FALSE` and nothing probed. -/
def probeFunction (cfg : BDF → FnState) (sbdf : SBDF) (barIndexLimit : Nat)
    (listBefore : List PeiResourceNode) : ProbeSt :=
  probeBars sbdf (List.range (barIndexLimit + 1)) ⟨cfg, listBefore, false, [], false⟩

/-- The accumulated outcome of enumerating one bridge: the final
configuration space, this bridge's resource list, the endpoints
`(Sbdf, Supports)` appended anywhere below, every `PCI_DEVICE_PRIVATE_DATA`
created `(Sbdf, Supports)`, and the resource nodes of all descendant
bridges' lists. -/
structure EnumSt where
  cfg : BDF → FnState
  list : List PeiResourceNode
  endpoints : List (SBDF × Nat)
  devices : List (SBDF × Nat)
  subNodes : List PeiResourceNode

/-- Processing of one present function inside `EnumerateBridgeResources`:
only bridges and essential devices that are not already decoding are
touched; a `PCI_DEVICE_PRIVATE_DATA` is created with
`Supports = IO | MEMORY | BUS_MASTER` (0x700), the BAR loop runs with
`BarIndexLimit` 1 for bridges and 5 otherwise (abandonment zeroes
`Supports`), and a bridge is recursed into through `recur` with the
secondary bus read from its config space while other devices join the
endpoint list. -/
def processFunction (recur : Nat → (BDF → FnState) → EnumSt)
    (seg bus dev func : Nat) (st : EnumSt) : EnumSt :=
  let b : BDF := ⟨seg, bus, dev, func⟩
  let fn := st.cfg b
  let sbdf : SBDF := ⟨seg, bus, dev, func, fn.pcieCap⟩
  if (fn.isBridge || fn.essential) && !isDeviceDecodingResources fn then
    let barIndexLimit := if fn.isBridge then 1 else 5
    let pr := probeFunction st.cfg sbdf barIndexLimit st.list
    let supports := if pr.abandoned then 0 else 0x700
    if fn.isBridge then
      let child := recur ((pr.cfg b).secBus) pr.cfg
      { cfg := child.cfg, list := pr.list,
        endpoints := st.endpoints ++ child.endpoints,
        devices := st.devices ++ [(sbdf, supports)] ++ child.devices,
        subNodes := st.subNodes ++ child.list ++ child.subNodes }
    else
      { cfg := pr.cfg, list := pr.list,
        endpoints := st.endpoints ++ [(sbdf, supports)],
        devices := st.devices ++ [(sbdf, supports)],
        subNodes := st.subNodes }
  else st

/-- The function loop (`Func = 0..7`): a missing function 0 stops the device
(break); other missing functions are skipped; after processing a present
function 0 that is not multi-function the rest of the device is skipped. -/
def enumFuncs (recur : Nat → (BDF → FnState) → EnumSt) (seg bus dev : Nat) :
    List Nat → EnumSt → EnumSt
  | [], st => st
  | f :: rest, st =>
    let b : BDF := ⟨seg, bus, dev, f⟩
    if (st.cfg b).present then
      let st' := processFunction recur seg bus dev f st
      if (st'.cfg b).multiFn = false ∧ f = 0 then st'
      else enumFuncs recur seg bus dev rest st'
    else
      if f = 0 then st else enumFuncs recur seg bus dev rest st

/-- The device loop (`Dev = 0..31`). -/
def enumDevs (recur : Nat → (BDF → FnState) → EnumSt) (seg bus : Nat) :
    List Nat → EnumSt → EnumSt
  | [], st => st
  | d :: rest, st =>
    enumDevs recur seg bus rest (enumFuncs recur seg bus d (List.range 8) st)

/-- EnumerateBridgeResources for the bridge with secondary bus `secBus` of
segment `seg`; `fuel` bounds the bridge recursion depth (the C recursion is
bounded by the actual bridge tree). -/
def enumerateBridgeResources : Nat → Nat → Nat → (BDF → FnState) → EnumSt
  | 0, _, _, cfg => ⟨cfg, [], [], [], []⟩
  | fuel + 1, seg, secBus, cfg =>
    enumDevs (fun sb c => enumerateBridgeResources fuel seg sb c) seg secBus
      (List.range 32) ⟨cfg, [], [], [], []⟩

/-- The abandonment trigger of claim C2 at BAR index `i` of function `fn`:
the BAR is implemented (probe read-back differs from the saved value), is a
memory BAR (bit0 clear) with bit2 set (64-bit), and the probed size exceeds
`SIZE_2GB`. -/
def trig64Big (fn : FnState) (i : Nat) : Prop :=
  fn.bars i ≠ fn.probe i ∧ fn.bars i &&& 1 = 0 ∧ fn.bars i &&& 4 ≠ 0 ∧
    memBarSize (fn.probe i) > 0x80000000

/-- The skip trigger of claim C2: same conditions with a probed size of at
most `SIZE_2GB`. -/
def trig64Small (fn : FnState) (i : Nat) : Prop :=
  fn.bars i ≠ fn.probe i ∧ fn.bars i &&& 1 = 0 ∧ fn.bars i &&& 4 ≠ 0 ∧
    memBarSize (fn.probe i) ≤ 0x80000000

/-! ## Theorems: the I/O programming pass recursion limit (C1) -/

/-- The concrete tree for C1: the root holds an I/O BAR of length 0x1000 at
offset 0 and the child bridge's I/O aperture (offset 0x1000, length 0x1000);
the child bridge holds the endpoint's I/O BAR of length 0x1000. -/
def c1Tree : P2PBridge :=
  P2PBridge.node ⟨0, 0, 0, 0, 0⟩
    [⟨0, 0x1000, 0, 0xFFF, ⟨0, 0, 1, 0, 0⟩, .ioRes⟩,
     ⟨0, 0x1000, 0x1000, 0xFFF, ⟨0, 0, 2, 0, 0⟩, .ioAp⟩]
    [P2PBridge.node ⟨0, 0, 2, 0, 0⟩
      [⟨0, 0x1000, 0, 0xFFF, ⟨0, 1, 0, 0, 0⟩, .ioRes⟩] []]

/-- The memory twin of `c1Tree` (1 MiB granules), used to contrast the two
passes. -/
def c1MemTree : P2PBridge :=
  P2PBridge.node ⟨0, 0, 0, 0, 0⟩
    [⟨0, 0x100000, 0, 0xFFFFF, ⟨0, 0, 1, 0, 0⟩, .memRes⟩,
     ⟨0, 0x100000, 0x100000, 0xFFFFF, ⟨0, 0, 2, 0, 0⟩, .memAp⟩]
    [P2PBridge.node ⟨0, 0, 2, 0, 0⟩
      [⟨0, 0x100000, 0, 0xFFFFF, ⟨0, 1, 0, 0, 0⟩, .memRes⟩] []]

/-- The bridge list of the C4 counterexample: two implemented I/O BARs of
sizes 0x10000 (a full 16-bit I/O BAR) and 0x100, as discovery leaves them
(offsets 0). -/
def c4List : List PeiResourceNode :=
  [⟨0, 0x10000, 0, 0xFFFF, ⟨0, 1, 0, 0, 0⟩, .ioRes⟩,
   ⟨1, 0x100, 0, 0xFF, ⟨0, 1, 0, 0, 0⟩, .ioRes⟩]

/-- The list used to witness `aperture_roundup_correct`: one memory BAR of
size 0x180000 and one I/O BAR of size 0x123 (after their offsets have been
assigned). -/
def c4WitnessList : List PeiResourceNode :=
  [⟨0, 0x180000, 0, 0x17FFFF, ⟨0, 1, 0, 0, 0⟩, .memRes⟩,
   ⟨1, 0x123, 0, 0x122, ⟨0, 1, 0, 0, 0⟩, .ioRes⟩]

/-- The memory aperture synthesised on `c4WitnessList`. -/
def c4MemAp : PeiResourceNode := ⟨0, 0x200000, 0, 0x1FFFFF, ⟨0, 0, 2, 0, 0⟩, .memAp⟩

/-- The I/O aperture synthesised on `c4WitnessList`. -/
def c4IoAp : PeiResourceNode := ⟨0, 0x1000, 0, 0xFFF, ⟨0, 0, 2, 0, 0⟩, .ioAp⟩

/-- The command-register bits selected from an attribute mask:
IO -> IO_SPACE, MEMORY -> MEMORY_SPACE, BUS_MASTER -> BUS_MASTER. -/
def cmdBitsOf (a : Nat) : Nat :=
  (if a &&& 0x100 ≠ 0 then 1 else 0) |||
    (if a &&& 0x200 ≠ 0 then 2 else 0) |||
    (if a &&& 0x400 ≠ 0 then 4 else 0)

/-- Device identity used by the C3 example lists. -/
def c3CxDev : SBDF := ⟨0, 0, 3, 0, 0⟩

/-- A bridge resource list with a non-power-of-two aperture length
(`0x300000`), as produced by the aperture roundup for a bridge whose children
total three megabytes; such lengths defeat the `&(Length-1)` alignment. -/
def c3CxList : List PeiResourceNode :=
  [⟨0, 4194304, 0, 0, c3CxDev, .memRes⟩, ⟨0, 3145728, 0, 0, c3CxDev, .memAp⟩]

/-- Single-node list used to exercise the C3 theorem at a concrete input. -/
def c3WitList : List PeiResourceNode :=
  [⟨0, 4, 0, 0, c3CxDev, .memRes⟩]

/-- A function state whose BAR 0 is an implemented 64-bit memory BAR probing
to `0xC0000000` (more than `SIZE_2GB`). -/
def c2Fn : FnState :=
  { present := true, isBridge := false, essential := true, multiFn := true,
    pcieCap := 0, secBus := 0, command := 0,
    bars := fun i => if i = 0 then 4 else 0,
    probe := fun i => if i = 0 then 0x40000004 else 0 }

/-- Configuration space for the C2 witness: every function reads as `c2Fn`. -/
def c2Cfg : BDF → FnState := fun _ => c2Fn

/-- The SBDF of the C2 witness device. -/
def c2Sbdf : SBDF := ⟨0, 0, 4, 0, 0⟩

/-- Initial BAR-loop state for the C2 witness. -/
def c2St : ProbeSt := ⟨c2Cfg, [], false, [], false⟩

/-- A function state that is present, essential, and already decoding
(command register has the I/O-space enable bit set). -/
def c9Fn : FnState :=
  { present := true, isBridge := false, essential := true, multiFn := true,
    pcieCap := 0, secBus := 0, command := 1,
    bars := fun i => if i = 0 then 0xE0000000 else 0,
    probe := fun i => if i = 0 then 0xFFF00000 else 0 }

/-- Configuration space for the C9 witness: every function reads as `c9Fn`. -/
def c9Cfg : BDF → FnState := fun _ => c9Fn

/-- The decoding function observed by the C9 witness. -/
def c9F : BDF := ⟨0, 0, 0, 0⟩

theorem u32_eq_of_lt {x : Nat} (h : x < 4294967296) : u32 x = x := Nat.mod_eq_of_lt h

theorem u32_lt (x : Nat) : u32 x < 4294967296 := Nat.mod_lt _ (by norm_num)

theorem sub32_one {x : Nat} (h1 : 1 ≤ x) (h2 : x < 4294967296) : sub32 x 1 = x - 1 := by
  unfold sub32 u32
  omega

/-! ## Bit-level lemmas used for the alignment and window-register arithmetic -/

/-- The mask `(2^n - 1) ^^^ (2^k - 1)` (for `k ≤ n`) selects exactly bits
`k ≤ i < n`; conjoined with `x < 2^n` it extracts `2^k * (x / 2^k)`,
i.e. `x` with its low `k` bits cleared. -/
theorem and_window_mask {x k n : Nat} (hx : x < 2 ^ n) (hk : k ≤ n) :
    x &&& ((2 ^ n - 1) ^^^ (2 ^ k - 1)) = 2 ^ k * (x / 2 ^ k) := by
  apply Nat.eq_of_testBit_eq
  intro i
  rw [Nat.testBit_and, Nat.testBit_xor, Nat.testBit_two_pow_sub_one,
    Nat.testBit_two_pow_sub_one, Nat.testBit_mul_pow_two]
  rcases Nat.lt_or_ge i k with hik | hik
  · simp [Nat.lt_of_lt_of_le hik hk, hik, Nat.not_le_of_lt hik]
  · rcases Nat.lt_or_ge i n with hin | hin
    · have hb : Nat.testBit (x / 2 ^ k) (i - k) = Nat.testBit x i := by
        rw [Nat.testBit, Nat.testBit, Nat.shiftRight_eq_div_pow,
          Nat.shiftRight_eq_div_pow, Nat.div_div_eq_div_mul, ← Nat.pow_add,
          Nat.add_sub_cancel' hik]
      simp [hin, hik, Nat.not_lt_of_le hik, hb]
    · have hxb : Nat.testBit x i = false :=
        Nat.testBit_lt_two_pow (Nat.lt_of_lt_of_le hx (Nat.pow_le_pow_right (by norm_num) hin))
      have hdb : Nat.testBit (x / 2 ^ k) (i - k) = Nat.testBit x i := by
        rw [Nat.testBit, Nat.testBit, Nat.shiftRight_eq_div_pow,
          Nat.shiftRight_eq_div_pow, Nat.div_div_eq_div_mul, ← Nat.pow_add,
          Nat.add_sub_cancel' hik]
      simp [hxb, hdb, Nat.not_lt_of_le hin, Nat.not_lt_of_le (Nat.le_trans hk hin)]

theorem and_window_le {x k n : Nat} (hx : x < 2 ^ n) (hk : k ≤ n) :
    x &&& ((2 ^ n - 1) ^^^ (2 ^ k - 1)) ≤ x := by
  rw [and_window_mask hx hk]
  exact Nat.mul_div_le x (2 ^ k)

theorem and_window_gt {x k n : Nat} (hx : x < 2 ^ n) (hk : k ≤ n) :
    x < (x &&& ((2 ^ n - 1) ^^^ (2 ^ k - 1))) + 2 ^ k := by
  rw [and_window_mask hx hk]
  have h1 := Nat.div_add_mod x (2 ^ k)
  have h2 : x % 2 ^ k < 2 ^ k :=
    Nat.mod_lt x (Nat.pos_pow_of_pos k (by norm_num))
  omega

/-- The C test `x & (2^k - 1)` detects misalignment: it is zero iff `2^k ∣ x`. -/
theorem and_pow_sub_one_eq_zero_iff (x k : Nat) :
    x &&& (2 ^ k - 1) = 0 ↔ 2 ^ k ∣ x := by
  rw [Nat.and_pow_two_sub_one_eq_mod, Nat.dvd_iff_mod_eq_zero]

/-! ## Theorems: the facade repeats a single device address (C10) -/

theorem accessLoop_addrs (addr : Nat) (val : Nat → Nat) :
    ∀ (n i : Nat), (accessLoop addr val i n).map Prod.fst = List.replicate n addr := by
  intro n
  induction n with
  | zero => intro i; rfl
  | succ m ih =>
    intro i
    simp [accessLoop, List.replicate, ih (i + 1)]

/-- C10: for every width in {8,16,32} and every count, the facade's
mem/io/config read and write loops perform all `count` device accesses at
one and the same address (the masked BAR base plus offset for Mem/Io, the
config base plus offset for config); only the buffer index advances. -/
theorem facade_single_address (cfg32 : Nat → Nat) (mm pio cfgAt : PciWidth → Nat → Nat)
    (cfgBase : Nat) (width : PciWidth) (barIndex offset count : Nat) (buf : Nat → Nat) :
    (pciBusMemRead cfg32 mm cfgBase width barIndex offset count).map Prod.fst =
      List.replicate count (memBarAddr cfg32 cfgBase barIndex offset) ∧
    (pciBusMemWrite cfg32 cfgBase width barIndex offset count buf).map Prod.fst =
      List.replicate count (memBarAddr cfg32 cfgBase barIndex offset) ∧
    (pciBusIoRead cfg32 pio cfgBase width barIndex offset count).map Prod.fst =
      List.replicate count (ioBarAddr cfg32 cfgBase barIndex offset) ∧
    (pciBusIoWrite cfg32 cfgBase width barIndex offset count buf).map Prod.fst =
      List.replicate count (ioBarAddr cfg32 cfgBase barIndex offset) ∧
    (pciBusConfigRead cfgAt cfgBase width offset count).map Prod.fst =
      List.replicate count (cfgAddr cfgBase offset) ∧
    (pciBusConfigWrite cfgBase width offset count buf).map Prod.fst =
      List.replicate count (cfgAddr cfgBase offset) := by
  cases width <;>
    exact ⟨accessLoop_addrs _ _ _ _, accessLoop_addrs _ _ _ _, accessLoop_addrs _ _ _ _,
      accessLoop_addrs _ _ _ _, accessLoop_addrs _ _ _ _, accessLoop_addrs _ _ _ _⟩

/-! ## Theorems: InitResources window values (C5) -/

theorem initResources_eq_writes (memLimit ioLimit : Nat) :
    ∀ (fuel : Nat) (hasParent : Bool) (t : P2PBridge),
      initResources fuel hasParent t memLimit ioLimit =
        ((nonRootBridgeDevices fuel hasParent t).map
          (fun d => bridgeWindowInitWrites d memLimit ioLimit)).flatten := by
  intro fuel
  induction fuel with
  | zero => intro hasParent t; rfl
  | succ m ih =>
    intro hasParent t
    cases t with
    | node dev res children =>
      show (children.map (fun c => initResources m true c memLimit ioLimit)).flatten ++ _ = _
      have hch : ∀ cs : List P2PBridge,
          (cs.map (fun c => initResources m true c memLimit ioLimit)).flatten =
            ((cs.map (fun c => nonRootBridgeDevices m true c)).flatten.map
              (fun d => bridgeWindowInitWrites d memLimit ioLimit)).flatten := by
        intro cs
        induction cs with
        | nil => rfl
        | cons c cs ihc => simp [ihc, ih true c]
      cases hasParent <;>
        simp [initResources, nonRootBridgeDevices, hch, bridgeWindowInitWrites,
          P2PBridge.children, P2PBridge.device]

theorem mbl_init_fields_eq {memLimit : Nat} (h : memLimit < 4294967296) :
    mblLimitField ((memLimit >>> 16) ||| (memLimit &&& 0xFFFF0000)) =
      mblBaseField ((memLimit >>> 16) ||| (memLimit &&& 0xFFFF0000)) := by
  have hmask : memLimit &&& 0xFFFF0000 = 2 ^ 16 * (memLimit / 2 ^ 16) := by
    have := and_window_mask (x := memLimit) (k := 16) (n := 32) (by exact_mod_cast h) (by norm_num)
    norm_num at this ⊢
    exact this
  have hshift : memLimit >>> 16 = memLimit / 2 ^ 16 := by
    rw [Nat.shiftRight_eq_div_pow]
  have ha : memLimit / 2 ^ 16 < 2 ^ 16 := by
    apply Nat.div_lt_of_lt_mul
    calc memLimit < 4294967296 := h
      _ = 2 ^ 16 * 2 ^ 16 := by norm_num
  set a := memLimit / 2 ^ 16 with hadef
  have hv : (memLimit >>> 16) ||| (memLimit &&& 0xFFFF0000) = 2 ^ 16 * a + a := by
    rw [hmask, hshift, Nat.lor_comm, ← Nat.mul_add_lt_is_or ha]
  rw [hv]
  unfold mblLimitField mblBaseField
  have hb : (2 ^ 16 * a + a) &&& 0xFFFF = a := by
    have : (0xFFFF : Nat) = 2 ^ 16 - 1 := by norm_num
    rw [this, Nat.and_pow_two_sub_one_eq_mod, Nat.mul_add_mod, Nat.mod_eq_of_lt ha]
  have hl : (2 ^ 16 * a + a) >>> 16 = a := by
    rw [Nat.shiftRight_eq_div_pow]
    have : (2 ^ 16 * a + a) / 2 ^ 16 = a + a / 2 ^ 16 := by
      rw [Nat.mul_add_div (by norm_num)]
    rw [this, Nat.div_eq_of_lt ha, Nat.add_zero]
  rw [hb, hl]

theorem iobl_init_fields_eq {ioLimit : Nat} (h : ioLimit < 65536) :
    ioblLimitField ((ioLimit >>> 8) ||| (ioLimit &&& 0xFF00)) =
      ioblBaseField ((ioLimit >>> 8) ||| (ioLimit &&& 0xFF00)) := by
  have hmask : ioLimit &&& 0xFF00 = 2 ^ 8 * (ioLimit / 2 ^ 8) := by
    have := and_window_mask (x := ioLimit) (k := 8) (n := 16) (by exact_mod_cast h) (by norm_num)
    norm_num at this ⊢
    exact this
  have hshift : ioLimit >>> 8 = ioLimit / 2 ^ 8 := by
    rw [Nat.shiftRight_eq_div_pow]
  have ha : ioLimit / 2 ^ 8 < 2 ^ 8 := by
    apply Nat.div_lt_of_lt_mul
    calc ioLimit < 65536 := h
      _ = 2 ^ 8 * 2 ^ 8 := by norm_num
  set b := ioLimit / 2 ^ 8 with hbdef
  have hv : (ioLimit >>> 8) ||| (ioLimit &&& 0xFF00) = 2 ^ 8 * b + b := by
    rw [hmask, hshift, Nat.lor_comm, ← Nat.mul_add_lt_is_or ha]
  rw [hv]
  unfold ioblLimitField ioblBaseField
  have hb8 : (2 ^ 8 * b + b) &&& 0xFF = b := by
    have : (0xFF : Nat) = 2 ^ 8 - 1 := by norm_num
    rw [this, Nat.and_pow_two_sub_one_eq_mod, Nat.mul_add_mod, Nat.mod_eq_of_lt ha]
  have hshr : (2 ^ 8 * b + b) >>> 8 = b := by
    rw [Nat.shiftRight_eq_div_pow]
    have : (2 ^ 8 * b + b) / 2 ^ 8 = b + b / 2 ^ 8 := by
      rw [Nat.mul_add_div (by norm_num)]
    rw [this, Nat.div_eq_of_lt ha, Nat.add_zero]
  rw [hshr]
  have hb8' : b &&& 0xFF = b := by
    have : (0xFF : Nat) = 2 ^ 8 - 1 := by norm_num
    rw [this, Nat.and_pow_two_sub_one_of_lt_two_pow ha]
  rw [hb8, hb8']

/-- C5 (amended): `InitResources` writes the window registers of every
non-root bridge of the tree, with the memory register value
`(MemLimit >> 16) | (MemLimit & 0xFFFF0000)` and the I/O register value
`(IoLimit >> 8) | (IoLimit & 0xFF00)`; in both values the encoded limit
field equals the encoded base field (rather than being strictly below it),
so each uninitialised window decodes exactly the one granule holding the
root's limit instead of being closed. -/
theorem initResources_limit_equals_base (fuel : Nat) (hasParent : Bool)
    (t : P2PBridge) (memLimit ioLimit : Nat)
    (hm : memLimit < 4294967296) (hi : ioLimit < 65536) :
    initResources fuel hasParent t memLimit ioLimit =
      ((nonRootBridgeDevices fuel hasParent t).map
        (fun d => bridgeWindowInitWrites d memLimit ioLimit)).flatten ∧
    mblLimitField ((memLimit >>> 16) ||| (memLimit &&& 0xFFFF0000)) =
      mblBaseField ((memLimit >>> 16) ||| (memLimit &&& 0xFFFF0000)) ∧
    ioblLimitField ((ioLimit >>> 8) ||| (ioLimit &&& 0xFF00)) =
      ioblBaseField ((ioLimit >>> 8) ||| (ioLimit &&& 0xFF00)) :=
  ⟨initResources_eq_writes memLimit ioLimit fuel hasParent t,
   mbl_init_fields_eq hm, iobl_init_fields_eq hi⟩

/-- Witness for C5: the root with one child bridge, with the limits of the
spec's first end-to-end scenario. -/
theorem initResources_limit_equals_base_witness :
    (0x8FFFFFFF : Nat) < 4294967296 ∧ (0xFFFF : Nat) < 65536 ∧
      (initResources 2 false
          (P2PBridge.node ⟨0, 0, 0, 0, 0⟩ [] [P2PBridge.node ⟨0, 0, 1, 0, 0⟩ [] []])
          0x8FFFFFFF 0xFFFF =
        ((nonRootBridgeDevices 2 false
            (P2PBridge.node ⟨0, 0, 0, 0, 0⟩ [] [P2PBridge.node ⟨0, 0, 1, 0, 0⟩ [] []])).map
          (fun d => bridgeWindowInitWrites d 0x8FFFFFFF 0xFFFF)).flatten ∧
      mblLimitField ((0x8FFFFFFF >>> 16) ||| (0x8FFFFFFF &&& 0xFFFF0000)) =
        mblBaseField ((0x8FFFFFFF >>> 16) ||| (0x8FFFFFFF &&& 0xFFFF0000)) ∧
      ioblLimitField ((0xFFFF >>> 8) ||| (0xFFFF &&& 0xFF00)) =
        ioblBaseField ((0xFFFF >>> 8) ||| (0xFFFF &&& 0xFF00))) :=
  ⟨by norm_num, by norm_num,
   initResources_limit_equals_base 2 false
     (P2PBridge.node ⟨0, 0, 0, 0, 0⟩ [] [P2PBridge.node ⟨0, 0, 1, 0, 0⟩ [] []])
     0x8FFFFFFF 0xFFFF (by norm_num) (by norm_num)⟩

/-- Counterexample for C5 as stated: with the root memory limit 0x8FFFFFFF
and I/O limit 0xFFFF, `InitResources` writes 0x8FFF8FFF and 0xFFFF to the
child bridge's window registers; in both, the encoded limit is not strictly
less than the encoded base (they are equal), so the window is not closed. -/
theorem initResources_not_closed_cx :
    initResources 2 false
        (P2PBridge.node ⟨0, 0, 0, 0, 0⟩ [] [P2PBridge.node ⟨0, 0, 1, 0, 0⟩ [] []])
        0x8FFFFFFF 0xFFFF =
      [ApplyEvent.windowWrite ⟨0, 0, 1, 0, 0⟩ 0x20 0x8FFF8FFF,
       ApplyEvent.windowWrite ⟨0, 0, 1, 0, 0⟩ 0x1C 0xFFFF] ∧
    ¬ mblLimitField 0x8FFF8FFF < mblBaseField 0x8FFF8FFF ∧
    ¬ ioblLimitField 0xFFFF < ioblBaseField 0xFFFF := by
  refine ⟨rfl, ?_, ?_⟩ <;> decide

/-- C1: evaluation of `ApplyIoResources` on `c1Tree` with the I/O range
(0x2000, 0x4FFF).  The child window register is programmed with the packed
form of base 0x3000 and limit 0x3FFF (= IoBase + Offset + Length - 1), but
the recursion enters the child with limit 0x2FFF (= IoBase + Length - 1,
omitting the offset, contradicting both the register just written and the
memory pass, whose analogous run below recurses with
MemBase + Offset + Length - 1); the child's budget check then fails
spuriously although 0x3FFF was within 0x4FFF. -/
theorem applyIoResources_recursion_limit_bug :
    applyIoResources 2 c1Tree 0x2000 0x4FFF =
      (.outOfResources,
       [ApplyEvent.barWrite ⟨0, 0, 1, 0, 0⟩ 0x10 0x2000,
        ApplyEvent.windowWrite ⟨0, 0, 2, 0, 0⟩ 0x1C 0x3F30,
        ApplyEvent.enterBridge ⟨0, 0, 2, 0, 0⟩ 0x3000 0x2FFF,
        ApplyEvent.barWrite ⟨0, 1, 0, 0, 0⟩ 0x10 0x3000]) ∧
    (0x2FFF : Nat) ≠ 0x2000 + 0x1000 + 0x1000 - 1 ∧
    applyMemResources 2 c1MemTree 0x80000000 0x8FFFFFFF =
      (.success,
       [ApplyEvent.barWrite ⟨0, 0, 1, 0, 0⟩ 0x10 0x80000000,
        ApplyEvent.windowWrite ⟨0, 0, 2, 0, 0⟩ 0x20 0x801F8010,
        ApplyEvent.enterBridge ⟨0, 0, 2, 0, 0⟩ 0x80100000 0x801FFFFF,
        ApplyEvent.barWrite ⟨0, 1, 0, 0, 0⟩ 0x10 0x80100000]) := by
  refine ⟨by decide, by decide, by decide⟩

/-! ## Theorems: aperture length round-up (C4) -/

theorem mem_roundup_eq {e : Nat} (he : e ≤ 0xFFF00000) :
    (if u32 e &&& 0xFFFFF ≠ 0 then u32 ((u32 e &&& 0xFFF00000) + 0x100000) else u32 e) =
      ((e + 0xFFFFF) / 0x100000) * 0x100000 := by
  have h32 : e < 4294967296 := by omega
  rw [u32_eq_of_lt h32]
  have hq := Nat.div_add_mod e (2 ^ 20)
  have hr : e % 2 ^ 20 < 2 ^ 20 := Nat.mod_lt e (by norm_num)
  by_cases hz : e &&& 0xFFFFF = 0
  · have hdvd : 2 ^ 20 ∣ e := by
      rw [← and_pow_sub_one_eq_zero_iff]
      have : ((2 : Nat) ^ 20 - 1) = 0xFFFFF := by norm_num
      rw [this]; exact hz
    obtain ⟨q, hqe⟩ := hdvd
    subst hqe
    simp only [hz, ne_eq, not_true_eq_false, if_false]
    norm_num
    omega
  · simp only [ne_eq, hz, not_false_eq_true, if_true]
    have hmasked : e &&& 0xFFF00000 = 2 ^ 20 * (e / 2 ^ 20) := by
      have hm := and_window_mask (x := e) (k := 20) (n := 32) (by norm_num; omega) (by norm_num)
      have : ((2 : Nat) ^ 32 - 1) ^^^ (2 ^ 20 - 1) = 0xFFF00000 := by decide
      rw [this] at hm
      exact hm
    have hrz : e % 2 ^ 20 ≠ 0 := by
      intro h
      apply hz
      have : ((2 : Nat) ^ 20 - 1) = 0xFFFFF := by norm_num
      rw [← this, and_pow_sub_one_eq_zero_iff]
      exact Nat.dvd_of_mod_eq_zero h
    rw [hmasked]
    rw [u32_eq_of_lt (by norm_num at he hr ⊢; omega)]
    norm_num at *
    omega

theorem io_roundup_eq {e : Nat} (he : e ≤ 0x10000) :
    (if u32 e &&& 0xFFF ≠ 0 then u32 ((u32 e &&& 0xF000) + 0x1000) else u32 e) =
      ((e + 0xFFF) / 0x1000) * 0x1000 := by
  have h32 : e < 4294967296 := by omega
  rw [u32_eq_of_lt h32]
  have hq := Nat.div_add_mod e (2 ^ 12)
  have hr : e % 2 ^ 12 < 2 ^ 12 := Nat.mod_lt e (by norm_num)
  by_cases hz : e &&& 0xFFF = 0
  · have hdvd : 2 ^ 12 ∣ e := by
      rw [← and_pow_sub_one_eq_zero_iff]
      have : ((2 : Nat) ^ 12 - 1) = 0xFFF := by norm_num
      rw [this]; exact hz
    obtain ⟨q, hqe⟩ := hdvd
    subst hqe
    simp only [hz, ne_eq, not_true_eq_false, if_false]
    norm_num
    omega
  · simp only [ne_eq, hz, not_false_eq_true, if_true]
    have he16 : e < 2 ^ 16 := by
      rcases Nat.lt_or_ge e 65536 with h | h
      · exact h
      · exfalso
        have : e = 65536 := by omega
        subst this
        exact hz (by decide)
    have hmasked : e &&& 0xF000 = 2 ^ 12 * (e / 2 ^ 12) := by
      have hm := and_window_mask (x := e) (k := 12) (n := 16) he16 (by norm_num)
      have : ((2 : Nat) ^ 16 - 1) ^^^ (2 ^ 12 - 1) = 0xF000 := by decide
      rw [this] at hm
      exact hm
    have hrz : e % 2 ^ 12 ≠ 0 := by
      intro h
      apply hz
      have : ((2 : Nat) ^ 12 - 1) = 0xFFF := by norm_num
      rw [← this, and_pow_sub_one_eq_zero_iff]
      exact Nat.dvd_of_mod_eq_zero h
    rw [hmasked]
    rw [u32_eq_of_lt (by norm_num at he16 hr ⊢; omega)]
    norm_num at *
    omega

/-- C4 (amended): the aperture synthesised by `AlignResourceTree` has length
`last.offset + last.length` rounded up to the granularity (1 MiB for memory,
4 KiB for I/O) — hence a multiple of the granularity and at least the
children's span — provided the un-rounded length does not overflow the
register-mask window: at most 0xFFF00000 for memory and, because the I/O
rounding masks with 0xF000 and so keeps only 16 bits, at most 0x10000 for
I/O (beyond these bounds the computed length can fall below the span). -/
theorem aperture_roundup_correct (dev : SBDF) (l : List PeiResourceNode) :
    (∀ lastR ap, bridgeGetLastResourceNode l memMask = some lastR →
      mkMemAperture dev l = some ap →
      lastR.offset + lastR.length ≤ 0xFFF00000 →
      ap.length = ((lastR.offset + lastR.length + 0xFFFFF) / 0x100000) * 0x100000 ∧
      ap.length % 0x100000 = 0 ∧ lastR.offset + lastR.length ≤ ap.length) ∧
    (∀ lastR ap, bridgeGetLastResourceNode l ioMask = some lastR →
      mkIoAperture dev l = some ap →
      lastR.offset + lastR.length ≤ 0x10000 →
      ap.length = ((lastR.offset + lastR.length + 0xFFF) / 0x1000) * 0x1000 ∧
      ap.length % 0x1000 = 0 ∧ lastR.offset + lastR.length ≤ ap.length) := by
  constructor
  · intro lastR ap hlast hmk he
    cases hfirst : bridgeGetFirstResourceNode l memMask with
    | none => rw [mkMemAperture, hlast, hfirst] at hmk; exact absurd hmk (by simp)
    | some firstR =>
      rw [mkMemAperture, hlast, hfirst] at hmk
      have hlen : ap.length =
          (if u32 (lastR.offset + lastR.length) &&& 0xFFFFF ≠ 0 then
            u32 ((u32 (lastR.offset + lastR.length) &&& 0xFFF00000) + 0x100000)
          else u32 (lastR.offset + lastR.length)) := by
        have := Option.some.inj hmk
        subst this
        by_cases hz : u32 (lastR.offset + lastR.length) &&& 0xFFFFF ≠ 0 <;> simp [hz]
      rw [hlen, mem_roundup_eq he]
      refine ⟨rfl, Nat.mul_mod_left _ _, ?_⟩
      have hdm := Nat.div_add_mod (lastR.offset + lastR.length + 0xFFFFF) 0x100000
      have h2 : (lastR.offset + lastR.length + 0xFFFFF) % 0x100000 < 0x100000 :=
        Nat.mod_lt _ (by norm_num)
      omega
  · intro lastR ap hlast hmk he
    cases hfirst : bridgeGetFirstResourceNode l ioMask with
    | none => rw [mkIoAperture, hlast, hfirst] at hmk; exact absurd hmk (by simp)
    | some firstR =>
      rw [mkIoAperture, hlast, hfirst] at hmk
      have hlen : ap.length =
          (if u32 (lastR.offset + lastR.length) &&& 0xFFF ≠ 0 then
            u32 ((u32 (lastR.offset + lastR.length) &&& 0xF000) + 0x1000)
          else u32 (lastR.offset + lastR.length)) := by
        have := Option.some.inj hmk
        subst this
        by_cases hz : u32 (lastR.offset + lastR.length) &&& 0xFFF ≠ 0 <;> simp [hz]
      rw [hlen, io_roundup_eq he]
      refine ⟨rfl, Nat.mul_mod_left _ _, ?_⟩
      have hdm := Nat.div_add_mod (lastR.offset + lastR.length + 0xFFF) 0x1000
      have h2 : (lastR.offset + lastR.length + 0xFFF) % 0x1000 < 0x1000 :=
        Nat.mod_lt _ (by norm_num)
      omega

/-- Counterexample for C4 as stated: after alignment the I/O children span
`last.offset + last.length = 0x10100`, whose 4 KiB round-up is 0x11000; but
the synthesised aperture's length is `(0x10100 & 0xF000) + 0x1000 = 0x1000`,
which is neither the round-up nor at least the span. -/
theorem ioAperture_roundup_cx :
    (bridgeGetLastResourceNode (alignBridgeResources c4List) ioMask).map
        (fun r => r.offset + r.length) = some 0x10100 ∧
    (mkIoAperture ⟨0, 0, 2, 0, 0⟩ (alignBridgeResources c4List)).map
        PeiResourceNode.length = some 0x1000 ∧
    (0x1000 : Nat) ≠ ((0x10100 + 0xFFF) / 0x1000) * 0x1000 ∧
    ¬ ((0x10100 : Nat) ≤ 0x1000) := by
  refine ⟨by decide, by decide, by decide, by decide⟩

/-- Witness for C4: on `c4WitnessList` the memory aperture length is the
1 MiB round-up 0x200000 of 0x180000 and the I/O aperture length is the 4 KiB
round-up 0x1000 of 0x123. -/
theorem aperture_roundup_correct_witness :
    ((0x180000 : Nat) ≤ 0xFFF00000) ∧ ((0x123 : Nat) ≤ 0x10000) ∧
    mkMemAperture ⟨0, 0, 2, 0, 0⟩ c4WitnessList = some c4MemAp ∧
    (c4MemAp.length = ((0x180000 + 0xFFFFF) / 0x100000) * 0x100000 ∧
      c4MemAp.length % 0x100000 = 0 ∧ 0x180000 ≤ c4MemAp.length) ∧
    mkIoAperture ⟨0, 0, 2, 0, 0⟩ c4WitnessList = some c4IoAp ∧
    (c4IoAp.length = ((0x123 + 0xFFF) / 0x1000) * 0x1000 ∧
      c4IoAp.length % 0x1000 = 0 ∧ 0x123 ≤ c4IoAp.length) :=
  ⟨by norm_num, by norm_num, rfl,
   (aperture_roundup_correct ⟨0, 0, 2, 0, 0⟩ c4WitnessList).1
     ⟨0, 0x180000, 0, 0x17FFFF, ⟨0, 1, 0, 0, 0⟩, .memRes⟩ c4MemAp rfl rfl (by norm_num),
   rfl,
   (aperture_roundup_correct ⟨0, 0, 2, 0, 0⟩ c4WitnessList).2
     ⟨1, 0x123, 0, 0x122, ⟨0, 1, 0, 0, 0⟩, .ioRes⟩ c4IoAp rfl rfl (by norm_num)⟩

/-! ## Theorems: the poll loops (C6) -/

theorem pciPollLoop_closed (reads : Nat → Nat) (mask value : Nat) :
    ∀ delay, 1 ≤ delay → ∀ i,
      pciPollLoop reads mask value i delay =
        (match (List.range' i ((delay - 1) / 100 + 1)).find?
            (fun j => reads j &&& mask = value) with
        | some k => ⟨.success, reads k, k⟩
        | none => ⟨.timeout, reads (i + (delay - 1) / 100), i + (delay - 1) / 100⟩) := by
  intro delay
  induction delay using Nat.strong_induction_on with
  | _ delay ih =>
    intro hd i
    rw [pciPollLoop]
    by_cases hm : reads i &&& mask = value
    · simp [hm, List.range'_succ, List.find?_cons]
    · rcases Nat.lt_or_ge 100 delay with hgt | hle
      · have hnle : ¬ delay ≤ 100 := by omega
        simp only [hm, if_false, hnle, ite_false]
        have hd' : 1 ≤ delay - 100 := by omega
        have hlt : delay - 100 < delay := by omega
        have heq := ih (delay - 100) hlt hd' (i + 1)
        have hm' : (delay - 1) / 100 = (delay - 100 - 1) / 100 + 1 := by omega
        rw [hm', List.range'_succ, List.find?_cons_of_neg _ (by simp [hm]), heq]
        cases hf : (List.range' (i + 1) ((delay - 100 - 1) / 100 + 1)).find?
            (fun j => decide (reads j &&& mask = value)) with
        | none =>
          have harith : i + 1 + (delay - 100 - 1) / 100 = i + ((delay - 100 - 1) / 100 + 1) := by
            omega
          simp [harith]
        | some k => rfl
      · have hle' : delay ≤ 100 := hle
        have hz : (delay - 1) / 100 = 0 := by omega
        simp only [hm, if_false, hle', ite_true, hz, List.range'_succ, List.range'_zero,
          List.find?_cons, List.find?_nil]
        have hpd : (fun j => decide (reads j &&& mask = value)) i = false := by
          simp [hm]
        simp [hpd, hm]

theorem pollIoLoop_eq_pciPollLoop (reads : Nat → Nat) (mask value : Nat) :
    ∀ delay i, pciBusPollIo.loop reads mask value i delay =
      pciPollLoop reads mask value i delay := by
  intro delay
  induction delay using Nat.strong_induction_on with
  | _ delay ih =>
    intro i
    rw [pciBusPollIo.loop, pciPollLoop]
    by_cases hm : reads i &&& mask = value
    · simp [hm]
    · by_cases hle : delay ≤ 100
      · simp [hm, hle]
      · have hlt : delay - 100 < delay := by omega
        simp only [hm, if_false, hle, ite_false]
        exact ih (delay - 100) hlt (i + 1)

theorem pciBusPollMem_eq_closed (reads : Nat → Nat) (mask value delay : Nat) :
    pciBusPollMem reads mask value delay = pollClosedForm reads mask value delay := by
  rw [pciBusPollMem, pollClosedForm]
  by_cases h0 : reads 0 &&& mask = value ∨ delay = 0
  · simp [h0]
  · simp only [h0, if_false]
    have hd : 1 ≤ delay := by omega
    rw [pciPollLoop_closed reads mask value delay hd 1]
    cases hf : (List.range' 1 ((delay - 1) / 100 + 1)).find?
        (fun j => decide (reads j &&& mask = value)) with
    | none =>
      have harith : 1 + (delay - 1) / 100 = (delay - 1) / 100 + 1 := by omega
      simp [harith]
    | some k => rfl

/-- C6: `PciBusPollMem` and `PciBusPollIo` both realise the claimed
behaviour, stated as the closed form `pollClosedForm`: one initial read, an
immediate success when it matches `(v & mask) == value` or `Delay == 0`, and
otherwise a stall/re-read loop that succeeds at the first matching re-read,
deducts 100 delay units (of 100 ns) per 10 us stall, and times out after
`(Delay - 1) / 100 + 1` re-reads, i.e. as soon as the remaining delay has
dropped to at most 100 without a match. -/
theorem pciBusPoll_matches_closed_form (memReads ioReadVals : Nat → Nat)
    (mask value delay : Nat) :
    pciBusPollMem memReads mask value delay = pollClosedForm memReads mask value delay ∧
    pciBusPollIo ioReadVals mask value delay = pollClosedForm ioReadVals mask value delay := by
  refine ⟨pciBusPollMem_eq_closed memReads mask value delay, ?_⟩
  rw [pciBusPollIo]
  by_cases h0 : ioReadVals 0 &&& mask = value ∨ delay = 0
  · simp [h0, pollClosedForm]
  · simp only [h0, if_false]
    rw [pollIoLoop_eq_pciPollLoop]
    have h2 := pciBusPollMem_eq_closed ioReadVals mask value delay
    rw [pciBusPollMem] at h2
    simp only [h0, if_false] at h2
    exact h2

/-! ## Theorems: the attribute state machine (C7, C8) -/

theorem and_not64_stable (x y : Nat) : (x &&& not64 y) &&& not64 y = x &&& not64 y := by
  rw [Nat.and_assoc, Nat.and_self]

theorem upstream_and_kDeviceEnable (x : Nat) :
    (x &&& not64 kDeviceEnable) &&& kDeviceEnable = 0 := by
  rw [Nat.and_assoc]
  have h : not64 kDeviceEnable &&& kDeviceEnable = 0 := by decide
  rw [h, Nat.and_zero]

theorem upstream_vga_lo (x : Nat) :
    (x &&& not64 kDeviceEnable) &&& 0x14 = x &&& 0x14 := by
  rw [Nat.and_assoc]
  have h : not64 kDeviceEnable &&& 0x14 = 0x14 := by decide
  rw [h]

theorem upstream_vga_hi (x : Nat) :
    (x &&& not64 kDeviceEnable) &&& 0x60000 = x &&& 0x60000 := by
  rw [Nat.and_assoc]
  have h : not64 kDeviceEnable &&& 0x60000 = 0x60000 := by decide
  rw [h]

theorem enableChain_unsupported_iff (u : Nat) (hu : u &&& kDeviceEnable = 0)
    (hstab : u &&& not64 kDeviceEnable = u) :
    ∀ (chain : List PciDevRec) (d : PciDevRec),
      ((attrEnableDisable true d chain u).1 = .unsupported ↔
        (vgaConflict u ∨ ¬ isSubsetOf u d.supports ∨
          ∃ p ∈ chain, ¬ isSubsetOf u p.supports)) ∧
      ((attrEnableDisable true d chain u).1 = .unsupported ∨
        (attrEnableDisable true d chain u).1 = .success) := by
  intro chain
  have hne : ¬ (u &&& kDeviceEnable = kDeviceEnable) := by rw [hu]; decide
  induction chain with
  | nil =>
    intro d
    simp only [attrEnableDisable, hne, ite_false]
    by_cases hv : u &&& 0x14 ≠ 0 ∧ u &&& 0x60000 ≠ 0
    · rw [if_pos hv]
      exact ⟨⟨fun _ => Or.inl hv, fun _ => rfl⟩, Or.inl rfl⟩
    · rw [if_neg hv]
      by_cases hs : d.supports &&& u ≠ u
      · rw [if_pos hs]
        exact ⟨⟨fun _ => Or.inr (Or.inl hs), fun _ => rfl⟩, Or.inl rfl⟩
      · rw [if_neg hs]
        refine ⟨⟨fun h => EfiStatus.noConfusion h, ?_⟩, Or.inr rfl⟩
        rintro (h | h | ⟨q, hq, hqs⟩)
        · exact absurd h hv
        · exact absurd h hs
        · exact absurd hq (List.not_mem_nil q)
  | cons p rest ih =>
    intro d
    simp only [attrEnableDisable, hne, ite_false]
    by_cases hv : u &&& 0x14 ≠ 0 ∧ u &&& 0x60000 ≠ 0
    · rw [if_pos hv]
      exact ⟨⟨fun _ => Or.inl hv, fun _ => rfl⟩, Or.inl rfl⟩
    · rw [if_neg hv]
      by_cases hs : d.supports &&& u ≠ u
      · rw [if_pos hs]
        exact ⟨⟨fun _ => Or.inr (Or.inl hs), fun _ => rfl⟩, Or.inl rfl⟩
      · rw [if_neg hs]
        show ((attrEnableDisable true p rest (u &&& not64 kDeviceEnable)).1 = _ ↔ _) ∧ _
        rw [hstab]
        refine ⟨?_, (ih p).2⟩
        rw [(ih p).1]
        constructor
        · rintro (h | h | ⟨q, hq, hqs⟩)
          · exact Or.inl h
          · exact Or.inr (Or.inr ⟨p, List.mem_cons_self _ _, h⟩)
          · exact Or.inr (Or.inr ⟨q, List.mem_cons_of_mem _ hq, hqs⟩)
        · rintro (h | h | ⟨q, hq, hqs⟩)
          · exact Or.inl h
          · exact absurd h hs
          · rcases List.mem_cons.mp hq with hq1 | hq2
            · subst hq1; exact Or.inr (Or.inl hqs)
            · exact Or.inr (Or.inr ⟨q, hq2, hqs⟩)

/-- C7 (amended): for an Enable or Disable attribute operation, attrs
containing all of DEVICE_ENABLE are intersected with the device's `Supports`
mask (not replaced by it, and containment rather than equality triggers
this); afterwards the operation fails with Unsupported exactly when a legacy
VGA flag and a 16-bit VGA flag are both requested, or the adjusted attrs are
not a subset of the device's `Supports`, or the operation is Enable and some
device on the parent chain does not support the upstream-filtered attrs
(the attrs with IO/MEM/BUS_MASTER stripped). -/
theorem attrEnableDisable_unsupported_iff (isEnable : Bool) (d : PciDevRec)
    (ancestors : List PciDevRec) (a : Nat) :
    ((attrEnableDisable isEnable d ancestors a).1 = .unsupported ↔
      (vgaConflict (adjustAttrs d.supports a) ∨
       ¬ isSubsetOf (adjustAttrs d.supports a) d.supports ∨
       (isEnable = true ∧ ∃ p ∈ ancestors,
         ¬ isSubsetOf (adjustAttrs d.supports a &&& not64 kDeviceEnable) p.supports))) ∧
    ((attrEnableDisable isEnable d ancestors a).1 = .unsupported ∨
      (attrEnableDisable isEnable d ancestors a).1 = .success) := by
  have hbody : ∀ s : Nat,
      (if a &&& kDeviceEnable = kDeviceEnable then a &&& s else a) = adjustAttrs s a := by
    intro s; rfl
  rw [attrEnableDisable.eq_def]
  simp only [hbody]
  by_cases hv : adjustAttrs d.supports a &&& 0x14 ≠ 0 ∧ adjustAttrs d.supports a &&& 0x60000 ≠ 0
  · rw [if_pos hv]
    exact ⟨⟨fun _ => Or.inl hv, fun _ => rfl⟩, Or.inl rfl⟩
  · rw [if_neg hv]
    by_cases hs : d.supports &&& adjustAttrs d.supports a ≠ adjustAttrs d.supports a
    · rw [if_pos hs]
      exact ⟨⟨fun _ => Or.inr (Or.inl hs), fun _ => rfl⟩, Or.inl rfl⟩
    · rw [if_neg hs]
      cases ancestors with
      | nil =>
        refine ⟨⟨fun h => EfiStatus.noConfusion h, ?_⟩, Or.inr rfl⟩
        rintro (h | h | ⟨_, ⟨q, hq, _⟩⟩)
        · exact absurd h hv
        · exact absurd h hs
        · exact absurd hq (List.not_mem_nil q)
      | cons p rest =>
        cases isEnable with
        | false =>
          refine ⟨⟨fun h => EfiStatus.noConfusion h, ?_⟩, Or.inr rfl⟩
          rintro (h | h | ⟨h, _⟩)
          · exact absurd h hv
          · exact absurd h hs
          · exact Bool.noConfusion h
        | true =>
          have hu := upstream_and_kDeviceEnable (adjustAttrs d.supports a)
          have hstab := and_not64_stable (adjustAttrs d.supports a) kDeviceEnable
          have hch := enableChain_unsupported_iff
            (adjustAttrs d.supports a &&& not64 kDeviceEnable) hu hstab rest p
          have hvga : ¬ vgaConflict (adjustAttrs d.supports a &&& not64 kDeviceEnable) := by
            intro hcc
            apply hv
            obtain ⟨h1, h2⟩ := hcc
            rw [upstream_vga_lo] at h1
            rw [upstream_vga_hi] at h2
            exact ⟨h1, h2⟩
          show ((attrEnableDisable true p rest
              (adjustAttrs d.supports a &&& not64 kDeviceEnable)).1 = _ ↔ _) ∧
            ((attrEnableDisable true p rest
              (adjustAttrs d.supports a &&& not64 kDeviceEnable)).1 = _ ∨
             (attrEnableDisable true p rest
              (adjustAttrs d.supports a &&& not64 kDeviceEnable)).1 = _)
          refine ⟨?_, hch.2⟩
          rw [hch.1]
          constructor
          · rintro (h | h | ⟨q, hq, hqs⟩)
            · exact absurd h hvga
            · exact Or.inr (Or.inr ⟨rfl, p, List.mem_cons_self _ _, h⟩)
            · exact Or.inr (Or.inr ⟨rfl, q, List.mem_cons_of_mem _ hq, hqs⟩)
          · rintro (h | h | ⟨_, q, hq, hqs⟩)
            · exact absurd h hv
            · exact absurd h hs
            · rcases List.mem_cons.mp hq with hq1 | hq2
              · subst hq1; exact Or.inr (Or.inl hqs)
              · exact Or.inr (Or.inr ⟨q, hq2, hqs⟩)

/-- Counterexample for C7 as stated: a device whose `Supports` mask is
IO | MEMORY | BUS_MASTER | VGA_IO | VGA_IO_16 (= 0x40710), asked to Enable
exactly DEVICE_ENABLE (0x700).  The code intersects (0x700 & 0x40710 =
0x700) and succeeds; the claim would replace attrs by the full supports
mask 0x40710, which contains both a legacy and a 16-bit VGA flag, and so
predicts failure with Unsupported. -/
theorem attributes_enable_replacement_cx :
    (attrEnableDisable true ⟨0x40710, 0, 0⟩ [] 0x700).1 = .success ∧
    claimC7Unsupported 0x40710 0x700 := by
  exact ⟨rfl, by decide⟩

theorem enable_zero_success (chain : List PciDevRec) (d : PciDevRec) :
    (attrEnableDisable true d chain 0).1 = .success := by
  have h := enableChain_unsupported_iff 0 (Nat.zero_and _) (Nat.zero_and _) chain d
  rcases h.2 with hu | hs
  · exfalso
    rcases h.1.mp hu with hv | hns | ⟨p, _, hns⟩
    · exact hv.1 (Nat.zero_and _)
    · exact hns (Nat.and_zero _)
    · exact hns (Nat.and_zero _)
  · exact hs

theorem testBit_not64 (y i : Nat) : (not64 y).testBit i = (decide (i < 64) ^^ y.testBit i) := by
  rw [not64]
  have hm : (18446744073709551615 : Nat) = 2 ^ 64 - 1 := by norm_num
  rw [hm, Nat.testBit_xor, Nat.testBit_two_pow_sub_one]

/-- The attribute update performed by a successful Enable followed by the
Disable of the complement: `(att ||| x) &&& ~(~x &&& s) = x` whenever
`att ⊆ s` and `x ⊆ s` (with `s` a 64-bit mask). -/
theorem and_or_not_not_and {att x s : Nat} (hatt : att &&& s = att) (hx : x &&& s = x)
    (hs : s < 2 ^ 64) :
    (att ||| x) &&& not64 (not64 x &&& s) = x := by
  apply Nat.eq_of_testBit_eq
  intro i
  have hattb : att.testBit i = (att.testBit i && s.testBit i) := by
    conv_lhs => rw [← hatt]
    rw [Nat.testBit_and]
  have hxb : x.testBit i = (x.testBit i && s.testBit i) := by
    conv_lhs => rw [← hx]
    rw [Nat.testBit_and]
  rw [Nat.testBit_and, Nat.testBit_or, testBit_not64, Nat.testBit_and, testBit_not64]
  rcases Nat.lt_or_ge i 64 with hi | hi
  · simp only [hi, decide_True]
    cases hbx : x.testBit i <;> cases hbs : s.testBit i <;>
      cases hba : att.testBit i <;> simp_all
  · have hsb : s.testBit i = false :=
      Nat.testBit_lt_two_pow (Nat.lt_of_lt_of_le hs (Nat.pow_le_pow_right (by norm_num) hi))
    have hxf : x.testBit i = false := by rw [hxb, hsb, Bool.and_false]
    have haf : att.testBit i = false := by rw [hattb, hsb, Bool.and_false]
    simp [Nat.not_lt_of_le hi, hsb, hxf, haf]

theorem attrEnable_step (d p : PciDevRec) (rest : List PciDevRec) (A : Nat)
    (hadj : (if A &&& kDeviceEnable = kDeviceEnable then A &&& d.supports else A) = A)
    (hvga : ¬ (A &&& 0x14 ≠ 0 ∧ A &&& 0x60000 ≠ 0))
    (hsub : d.supports &&& A = A) :
    attrEnableDisable true d (p :: rest) A =
      ((attrEnableDisable true p rest (A &&& not64 kDeviceEnable)).1,
       { d with command := d.command ||| cmdBitsOf A, attrs := d.attrs ||| A },
       (attrEnableDisable true p rest (A &&& not64 kDeviceEnable)).2.1 ::
         (attrEnableDisable true p rest (A &&& not64 kDeviceEnable)).2.2) := by
  rw [attrEnableDisable.eq_def]
  simp only [hadj]
  rw [if_neg hvga, if_neg (show ¬ (d.supports &&& A ≠ A) from fun hc => hc hsub)]
  rfl

theorem attrDisable_step (d q : PciDevRec) (qrest : List PciDevRec) (A : Nat)
    (hadj : (if A &&& kDeviceEnable = kDeviceEnable then A &&& d.supports else A) = A)
    (hvga : ¬ (A &&& 0x14 ≠ 0 ∧ A &&& 0x60000 ≠ 0))
    (hsub : d.supports &&& A = A) :
    attrEnableDisable false d (q :: qrest) A =
      (.success,
       { d with command := d.command &&& not16 (cmdBitsOf A), attrs := d.attrs &&& not64 A },
       q :: qrest) := by
  rw [attrEnableDisable.eq_def]
  simp only [hadj]
  rw [if_neg hvga, if_neg (show ¬ (d.supports &&& A ≠ A) from fun hc => hc hsub)]
  rfl

/-- C8 (amended): for a device that has a parent, whose `Attributes` are
within `Supports` and whose `Supports` are within DEVICE_ENABLE (as holds
for every device this driver creates), and for attrs `x ⊆ Supports`,
`Set(x)` succeeds and a subsequent `Get` returns `x & Supports`.  (For
`x ⊄ Supports` the Set fails with Unsupported and `Get` keeps the previous
attributes, and a parentless device is never updated at all.) -/
theorem set_then_get (d p : PciDevRec) (rest : List PciDevRec) (x : Nat)
    (hx : x &&& d.supports = x) (hatt : d.attrs &&& d.supports = d.attrs)
    (hsup : d.supports &&& kDeviceEnable = d.supports) :
    (pciBusAttributes .opSet d (p :: rest) x).1 = .success ∧
    (pciBusAttributes .opGet (pciBusAttributes .opSet d (p :: rest) x).2.2.1
        (pciBusAttributes .opSet d (p :: rest) x).2.2.2 0).2.1 =
      some (x &&& d.supports) := by
  have hx700 : x &&& kDeviceEnable = x := by
    conv_lhs => rw [← hx]
    rw [Nat.and_assoc, hsup, hx]
  have hxup : x &&& not64 kDeviceEnable = 0 := by
    conv_lhs => rw [← hx700]
    rw [Nat.and_assoc]
    have : kDeviceEnable &&& not64 kDeviceEnable = 0 := by decide
    rw [this, Nat.and_zero]
  have hxvga : ¬ (x &&& 0x14 ≠ 0 ∧ x &&& 0x60000 ≠ 0) := by
    rintro ⟨h1, _⟩
    apply h1
    conv_lhs => rw [← hx700]
    rw [Nat.and_assoc]
    have : kDeviceEnable &&& 0x14 = 0 := by decide
    rw [this, Nat.and_zero]
  have hadjx : (if x &&& kDeviceEnable = kDeviceEnable then x &&& d.supports else x) = x := by
    by_cases h : x &&& kDeviceEnable = kDeviceEnable
    · rw [if_pos h, hx]
    · rw [if_neg h]
  have hsubx : d.supports &&& x = x := by rw [Nat.and_comm, hx]
  have hEn := attrEnable_step d p rest x hadjx hxvga hsubx
  have hEnSt : (attrEnableDisable true d (p :: rest) x).1 = .success := by
    rw [hEn]
    show (attrEnableDisable true p rest (x &&& not64 kDeviceEnable)).1 = _
    rw [hxup]
    exact enable_zero_success rest p
  have hSsup : d.supports &&& 0x14 = 0 := by
    conv_lhs => rw [← hsup]
    rw [Nat.and_assoc]
    have : kDeviceEnable &&& 0x14 = 0 := by decide
    rw [this, Nat.and_zero]
  have hSvgaHi : d.supports &&& 0x60000 = 0 := by
    conv_lhs => rw [← hsup]
    rw [Nat.and_assoc]
    have : kDeviceEnable &&& 0x60000 = 0 := by decide
    rw [this, Nat.and_zero]
  have hDS : d.supports &&& (not64 x &&& d.supports) = not64 x &&& d.supports := by
    rw [Nat.and_comm (not64 x) d.supports, ← Nat.and_assoc, Nat.and_self,
      Nat.and_comm d.supports (not64 x)]
  have hDSS : (not64 x &&& d.supports) &&& d.supports = not64 x &&& d.supports := by
    rw [Nat.and_assoc, Nat.and_self]
  have hDvga : ¬ ((not64 x &&& d.supports) &&& 0x14 ≠ 0 ∧
      (not64 x &&& d.supports) &&& 0x60000 ≠ 0) := by
    rintro ⟨h1, _⟩
    apply h1
    rw [Nat.and_assoc, hSsup, Nat.and_zero]
  have hadjD : (if (not64 x &&& d.supports) &&& kDeviceEnable = kDeviceEnable then
      (not64 x &&& d.supports) &&& d.supports else (not64 x &&& d.supports)) =
      not64 x &&& d.supports := by
    by_cases h : (not64 x &&& d.supports) &&& kDeviceEnable = kDeviceEnable
    · rw [if_pos h, hDSS]
    · rw [if_neg h]
  have hs64 : d.supports < 2 ^ 64 := by
    have h1 : d.supports ≤ kDeviceEnable := by
      conv_lhs => rw [← hsup]
      exact Nat.and_le_right
    have : kDeviceEnable < 2 ^ 64 := by norm_num [kDeviceEnable]
    omega
  have hSet : pciBusAttributes .opSet d (p :: rest) x =
      (.success, none,
       { d with
         command := (d.command ||| cmdBitsOf x) &&& not16 (cmdBitsOf (not64 x &&& d.supports)),
         attrs := (d.attrs ||| x) &&& not64 (not64 x &&& d.supports) },
       (attrEnableDisable true p rest 0).2.1 :: (attrEnableDisable true p rest 0).2.2) := by
    simp only [pciBusAttributes]
    rw [hEn, hxup]
    have hz := enable_zero_success rest p
    simp only [hz]
    rw [if_neg (show ¬ (EfiStatus.success ≠ EfiStatus.success) from fun hq => hq rfl)]
    have hproj : ({ d with
        command := d.command ||| cmdBitsOf x,
        attrs := d.attrs ||| x } : PciDevRec).supports = d.supports := rfl
    rw [hproj]
    rw [attrDisable_step
      { d with
        command := d.command ||| cmdBitsOf x,
        attrs := d.attrs ||| x }
      (attrEnableDisable true p rest 0).2.1 (attrEnableDisable true p rest 0).2.2
      (not64 x &&& d.supports) hadjD hDvga hDS]
    rw [if_neg (show ¬ (EfiStatus.success ≠ EfiStatus.success) from fun hq => hq rfl)]
  rw [hSet]
  refine ⟨rfl, ?_⟩
  simp only [pciBusAttributes]
  show some ((d.attrs ||| x) &&& not64 (not64 x &&& d.supports)) = some (x &&& d.supports)
  rw [and_or_not_not_and hatt hx hs64, hx]

/-- Counterexample for C8 as stated: a device with `Supports = 0x700` whose
attributes are already 0x700; `Set(0x10)` (VGA_IO, not in `Supports`) fails
with Unsupported and leaves the attributes at 0x700, so the following Get
returns 0x700 and not `0x10 & 0x700 = 0`. -/
theorem set_then_get_cx :
    (pciBusAttributes .opSet ⟨0x700, 0x700, 7⟩ [⟨0x700, 0, 0⟩] 0x10).1 = .unsupported ∧
    (pciBusAttributes .opGet
        (pciBusAttributes .opSet ⟨0x700, 0x700, 7⟩ [⟨0x700, 0, 0⟩] 0x10).2.2.1
        (pciBusAttributes .opSet ⟨0x700, 0x700, 7⟩ [⟨0x700, 0, 0⟩] 0x10).2.2.2 0).2.1 =
      some 0x700 ∧
    ¬ (some (0x700 : Nat) = some (0x10 &&& 0x700)) := by
  refine ⟨rfl, rfl, by decide⟩

/-- Witness for C8: a USB-controller-like device (`Supports = 0x700`,
attributes 0, command 0) under one parent; `Set(0x300)` succeeds and Get
returns `0x300 & 0x700 = 0x300`. -/
theorem set_then_get_witness :
    ((0x300 : Nat) &&& (0x700 : Nat) = 0x300) ∧
    ((0 : Nat) &&& (0x700 : Nat) = 0) ∧
    ((0x700 : Nat) &&& kDeviceEnable = 0x700) ∧
    ((pciBusAttributes .opSet ⟨0x700, 0, 0⟩ [⟨0x700, 0, 0⟩] 0x300).1 = .success ∧
      (pciBusAttributes .opGet
          (pciBusAttributes .opSet ⟨0x700, 0, 0⟩ [⟨0x700, 0, 0⟩] 0x300).2.2.1
          (pciBusAttributes .opSet ⟨0x700, 0, 0⟩ [⟨0x700, 0, 0⟩] 0x300).2.2.2 0).2.1 =
        some (0x300 &&& (⟨0x700, 0, 0⟩ : PciDevRec).supports)) :=
  ⟨by decide, by decide, by decide,
   set_then_get ⟨0x700, 0, 0⟩ ⟨0x700, 0, 0⟩ [] 0x300 (by decide) (by decide) (by decide)⟩

/-! ## Theorems: offset alignment and non-overlap (C3) -/

theorem bubblePassGo_perm (l : List PeiResourceNode) :
    ∀ cur, (bubblePassGo cur l).1.Perm (cur :: l) := by
  induction l with
  | nil => intro cur; exact List.Perm.refl _
  | cons b rest ih =>
    intro cur
    rw [bubblePassGo]
    by_cases h : b.length > cur.length
    · rw [if_pos h]
      exact (List.Perm.cons b (ih cur)).trans (List.Perm.swap cur b rest)
    · rw [if_neg h]
      exact List.Perm.cons cur (ih b)

theorem bubblePass_perm (l : List PeiResourceNode) : (bubblePass l).1.Perm l := by
  cases l with
  | nil => exact List.Perm.refl _
  | cons a rest => exact bubblePassGo_perm rest a

theorem bubbleLoop_perm : ∀ (n : Nat) (l : List PeiResourceNode), (bubbleLoop n l).Perm l := by
  intro n
  induction n with
  | zero => intro l; exact List.Perm.refl _
  | succ m ih =>
    intro l
    rw [bubbleLoop]
    by_cases h : (bubblePass l).2
    · rw [if_pos h]
      exact (ih (bubblePass l).1).trans (bubblePass_perm l)
    · rw [if_neg h]
      exact bubblePass_perm l

theorem bridgeSortResourceList_perm (l : List PeiResourceNode) :
    (bridgeSortResourceList l).Perm l :=
  bubbleLoop_perm (l.length + 1) l

theorem nodeMatches_offset (r : PeiResourceNode) (o mask : Nat) :
    nodeMatches { r with offset := o } mask = nodeMatches r mask := rfl

theorem ioMatch_not_memMatch {r : PeiResourceNode} (h : nodeMatches r ioMask = true) :
    nodeMatches r memMask = false := by
  rcases r with ⟨b, len, off, al, dev, t⟩
  cases t <;>
    simp_all [nodeMatches, PeiResourceType.mask, memMask, ioMask,
      show (1 : Nat) &&& 10 = 0 from by decide, show (2 : Nat) &&& 5 = 0 from by decide,
      show (4 : Nat) &&& 10 = 0 from by decide, show (8 : Nat) &&& 5 = 0 from by decide,
      show (1 : Nat) &&& 5 = 1 from by decide, show (2 : Nat) &&& 10 = 2 from by decide,
      show (4 : Nat) &&& 5 = 4 from by decide, show (8 : Nat) &&& 10 = 8 from by decide]

theorem memMatch_not_ioMatch {r : PeiResourceNode} (h : nodeMatches r memMask = true) :
    nodeMatches r ioMask = false := by
  rcases r with ⟨b, len, off, al, dev, t⟩
  cases t <;>
    simp_all [nodeMatches, PeiResourceType.mask, memMask, ioMask,
      show (1 : Nat) &&& 10 = 0 from by decide, show (2 : Nat) &&& 5 = 0 from by decide,
      show (4 : Nat) &&& 10 = 0 from by decide, show (8 : Nat) &&& 5 = 0 from by decide,
      show (1 : Nat) &&& 5 = 1 from by decide, show (2 : Nat) &&& 10 = 2 from by decide,
      show (4 : Nat) &&& 5 = 4 from by decide, show (8 : Nat) &&& 10 = 8 from by decide]

theorem match_io_or_mem (r : PeiResourceNode) :
    nodeMatches r ioMask = true ∨ nodeMatches r memMask = true := by
  rcases r with ⟨b, len, off, al, dev, t⟩
  cases t <;>
    simp [nodeMatches, PeiResourceType.mask, memMask, ioMask,
      show (1 : Nat) &&& 10 = 0 from by decide, show (2 : Nat) &&& 5 = 0 from by decide,
      show (4 : Nat) &&& 10 = 0 from by decide, show (8 : Nat) &&& 5 = 0 from by decide,
      show (1 : Nat) &&& 5 = 1 from by decide, show (2 : Nat) &&& 10 = 2 from by decide,
      show (4 : Nat) &&& 5 = 4 from by decide, show (8 : Nat) &&& 10 = 8 from by decide]

theorem sum_filter_le (p : PeiResourceNode → Bool) :
    ∀ l : List PeiResourceNode,
      ((l.filter p).map PeiResourceNode.length).sum ≤ (l.map PeiResourceNode.length).sum := by
  intro l
  induction l with
  | nil => simp
  | cons r rest ih =>
    by_cases h : p r
    · simp only [List.filter_cons, h, ite_true, List.map_cons, List.sum_cons]
      omega
    · simp only [List.filter_cons, h, Bool.false_eq_true, ite_false, List.map_cons,
        List.sum_cons]
      omega

theorem assignOffsets_filter_other {mask mask' : Nat}
    (hdisj : ∀ r : PeiResourceNode, nodeMatches r mask' = true → nodeMatches r mask = false) :
    ∀ (acc : Option Nat) (l : List PeiResourceNode),
      (assignOffsets mask acc l).filter (fun r => nodeMatches r mask') =
        l.filter (fun r => nodeMatches r mask') := by
  intro acc l
  induction l generalizing acc with
  | nil => rfl
  | cons r rest ih =>
    rw [assignOffsets.eq_def]
    dsimp only
    by_cases hm : nodeMatches r mask
    · have hm' : nodeMatches r mask' = false := by
        by_cases h' : nodeMatches r mask'
        · exact absurd (hdisj r h') (by simp [hm])
        · exact Bool.eq_false_iff.mpr h'
      rw [if_pos hm]
      cases acc with
      | none =>
        simp only [List.filter_cons, hm', Bool.false_eq_true, ite_false]
        exact ih _
      | some e =>
        simp only [List.filter_cons, nodeMatches_offset, hm', Bool.false_eq_true, ite_false]
        exact ih _
    · rw [if_neg hm]
      simp only [List.filter_cons]
      by_cases h' : nodeMatches r mask'
      · simp only [h', ite_true, ih acc]
      · simp only [h', Bool.false_eq_true, ite_false, ih acc]

theorem assignOffsets_mem_of_not_matching {mask : Nat} :
    ∀ (l : List PeiResourceNode) (acc : Option Nat) (r' : PeiResourceNode),
      r' ∈ assignOffsets mask acc l → nodeMatches r' mask = false → r' ∈ l := by
  intro l
  induction l with
  | nil => intro acc r' h _; exact absurd h (List.not_mem_nil r')
  | cons r rest ih =>
    intro acc r' hmem hnm
    rw [assignOffsets.eq_def] at hmem
    dsimp only at hmem
    by_cases hm : nodeMatches r mask
    · rw [if_pos hm] at hmem
      cases acc with
      | none =>
        rcases List.mem_cons.mp hmem with h | h
        · subst h; rw [hm] at hnm; exact Bool.noConfusion hnm
        · exact List.mem_cons_of_mem _ (ih _ r' h hnm)
      | some e =>
        rcases List.mem_cons.mp hmem with h | h
        · subst h
          rw [nodeMatches_offset, hm] at hnm
          exact Bool.noConfusion hnm
        · exact List.mem_cons_of_mem _ (ih _ r' h hnm)
    · rw [if_neg hm] at hmem
      rcases List.mem_cons.mp hmem with h | h
      · subst h; exact List.mem_cons_self _ _
      · exact List.mem_cons_of_mem _ (ih _ r' h hnm)

theorem assignOffsets_go_spec (mask : Nat) :
    ∀ (l : List PeiResourceNode) (e : Nat),
      (∀ r ∈ l, nodeMatches r mask = true → ∃ k, r.length = 2 ^ k) →
      e + 2 * ((l.filter (fun r => nodeMatches r mask)).map PeiResourceNode.length).sum <
        4294967296 →
      (∀ r ∈ assignOffsets mask (some e) l, nodeMatches r mask = true →
        r.length ∣ r.offset) ∧
      List.Chain' (fun a b => a.offset + a.length ≤ b.offset)
        ((assignOffsets mask (some e) l).filter (fun r => nodeMatches r mask)) ∧
      (∀ f, ((assignOffsets mask (some e) l).filter (fun r => nodeMatches r mask)).head? =
          some f → e ≤ f.offset) := by
  intro l
  induction l with
  | nil =>
    intro e _ _
    exact ⟨fun r h => absurd h (List.not_mem_nil r), List.chain'_nil, fun f hf => by
      exact absurd hf (by simp [assignOffsets])⟩
  | cons r rest ih =>
    intro e hpow hbound
    rw [assignOffsets.eq_def]
    dsimp only
    by_cases hm : nodeMatches r mask
    · rw [if_pos hm]
      obtain ⟨k, hk⟩ := hpow r (List.mem_cons_self _ _) hm
      have hfsum : ((List.filter (fun r => nodeMatches r mask) (r :: rest)).map
          PeiResourceNode.length).sum =
          r.length + ((List.filter (fun r => nodeMatches r mask) rest).map
            PeiResourceNode.length).sum := by
        simp [List.filter_cons, hm]
      rw [hfsum] at hbound
      have hlen1 : 1 ≤ r.length := by rw [hk]; exact Nat.one_le_two_pow
      have hlen32 : r.length < 4294967296 := by omega
      have he32 : e < 4294967296 := by omega
      have hsub : sub32 r.length 1 = r.length - 1 := sub32_one hlen1 hlen32
      rw [hsub]
      have hk32 : k ≤ 32 := by
        by_contra hcon
        have : 2 ^ 33 ≤ 2 ^ k := Nat.pow_le_pow_right (by norm_num) (by omega)
        have : (8589934592 : Nat) ≤ r.length := by rw [hk]; exact_mod_cast this
        omega
      by_cases htest : e &&& (r.length - 1) ≠ 0
      · rw [if_pos htest]
        have hmasked : e &&& not32 (r.length - 1) = 2 ^ k * (e / 2 ^ k) := by
          rw [hk, not32]
          have h1 : (4294967295 : Nat) = 2 ^ 32 - 1 := by norm_num
          rw [h1]
          exact and_window_mask he32 hk32
        have hle : e &&& not32 (r.length - 1) ≤ e := by
          rw [hk, not32]
          have h1 : (4294967295 : Nat) = 2 ^ 32 - 1 := by norm_num
          rw [h1]
          exact and_window_le he32 hk32
        have hgt : e < (e &&& not32 (r.length - 1)) + 2 ^ k := by
          rw [hk, not32]
          have h1 : (4294967295 : Nat) = 2 ^ 32 - 1 := by norm_num
          rw [h1]
          exact and_window_gt he32 hk32
        have ho1 : u32 ((e &&& not32 (r.length - 1)) + r.length) =
            (e &&& not32 (r.length - 1)) + r.length :=
          u32_eq_of_lt (by omega)
        rw [ho1]
        have ho1e : e < (e &&& not32 (r.length - 1)) + r.length := by omega
        have hdvd : r.length ∣ (e &&& not32 (r.length - 1)) + r.length := by
          rw [hmasked, hk]
          exact ⟨e / 2 ^ k + 1, by ring⟩
        have he1 : u32 ((e &&& not32 (r.length - 1)) + r.length + r.length) =
            (e &&& not32 (r.length - 1)) + r.length + r.length :=
          u32_eq_of_lt (by omega)
        rw [he1]
        obtain ⟨ih1, ih2, ih3⟩ := ih ((e &&& not32 (r.length - 1)) + r.length + r.length)
          (fun r2 h2 => hpow r2 (List.mem_cons_of_mem _ h2)) (by omega)
        refine ⟨?_, ?_, ?_⟩
        · intro r2 h2 hm2
          rcases List.mem_cons.mp h2 with h3 | h3
          · subst h3; exact hdvd
          · exact ih1 r2 h3 hm2
        · simp only [List.filter_cons, nodeMatches_offset, hm, ite_true]
          rw [List.chain'_cons']
          refine ⟨?_, ih2⟩
          intro b hb
          have := ih3 b (Option.mem_def.mp hb)
          show (e &&& not32 (r.length - 1)) + r.length + r.length ≤ b.offset
          omega
        · intro f hf
          simp only [List.filter_cons, nodeMatches_offset, hm, ite_true,
            List.head?_cons] at hf
          have : f = { r with offset := (e &&& not32 (r.length - 1)) + r.length } := by
            exact (Option.some.inj hf).symm
          subst this
          show e ≤ (e &&& not32 (r.length - 1)) + r.length
          omega
      · rw [if_neg htest]
        have hz : e &&& (r.length - 1) = 0 := by
          by_contra hcon
          exact htest hcon
        have hdvd : r.length ∣ e := by
          rw [hk]
          rw [← and_pow_sub_one_eq_zero_iff]
          rw [hk] at hz
          exact hz
        have he1 : u32 (e + r.length) = e + r.length := u32_eq_of_lt (by omega)
        rw [he1]
        obtain ⟨ih1, ih2, ih3⟩ := ih (e + r.length)
          (fun r2 h2 => hpow r2 (List.mem_cons_of_mem _ h2)) (by omega)
        refine ⟨?_, ?_, ?_⟩
        · intro r2 h2 hm2
          rcases List.mem_cons.mp h2 with h3 | h3
          · subst h3; exact hdvd
          · exact ih1 r2 h3 hm2
        · simp only [List.filter_cons, nodeMatches_offset, hm, ite_true]
          rw [List.chain'_cons']
          refine ⟨?_, ih2⟩
          intro b hb
          have := ih3 b (Option.mem_def.mp hb)
          show e + r.length ≤ b.offset
          omega
        · intro f hf
          simp only [List.filter_cons, nodeMatches_offset, hm, ite_true,
            List.head?_cons] at hf
          have : f = { r with offset := e } := (Option.some.inj hf).symm
          subst this
          show e ≤ e
          omega
    · rw [if_neg hm]
      have hfsum : (List.filter (fun r => nodeMatches r mask) (r :: rest)) =
          List.filter (fun r => nodeMatches r mask) rest := by
        simp [List.filter_cons, hm]
      obtain ⟨ih1, ih2, ih3⟩ := ih e
        (fun r2 h2 => hpow r2 (List.mem_cons_of_mem _ h2)) (by rw [hfsum] at hbound; omega)
      have hmf : nodeMatches r mask = false := by simpa using hm
      refine ⟨?_, ?_, ?_⟩
      · intro r2 h2 hm2
        rcases List.mem_cons.mp h2 with h3 | h3
        · subst h3; rw [hmf] at hm2; exact Bool.noConfusion hm2
        · exact ih1 r2 h3 hm2
      · simp only [List.filter_cons, hm, Bool.false_eq_true, ite_false]
        exact ih2
      · intro f hf
        simp only [List.filter_cons, hm, Bool.false_eq_true, ite_false] at hf
        exact ih3 f hf

theorem assignOffsets_none_spec (mask : Nat) :
    ∀ (l : List PeiResourceNode),
      (∀ r ∈ l, nodeMatches r mask = true → r.offset = 0) →
      (∀ r ∈ l, nodeMatches r mask = true → ∃ k, r.length = 2 ^ k) →
      2 * ((l.filter (fun r => nodeMatches r mask)).map PeiResourceNode.length).sum <
        4294967296 →
      (∀ r ∈ assignOffsets mask none l, nodeMatches r mask = true →
        r.length ∣ r.offset) ∧
      List.Chain' (fun a b => a.offset + a.length ≤ b.offset)
        ((assignOffsets mask none l).filter (fun r => nodeMatches r mask)) := by
  intro l
  induction l with
  | nil =>
    intro _ _ _
    exact ⟨fun r h => absurd h (List.not_mem_nil r), by simp [assignOffsets]⟩
  | cons r rest ih =>
    intro hoff hpow hbound
    rw [assignOffsets.eq_def]
    dsimp only
    by_cases hm : nodeMatches r mask
    · rw [if_pos hm]
      have hoffr := hoff r (List.mem_cons_self _ _) hm
      have hfsum : ((List.filter (fun r => nodeMatches r mask) (r :: rest)).map
          PeiResourceNode.length).sum =
          r.length + ((List.filter (fun r => nodeMatches r mask) rest).map
            PeiResourceNode.length).sum := by
        simp [List.filter_cons, hm]
      rw [hfsum] at hbound
      have hlen32 : r.length < 4294967296 := by omega
      have he : u32 (r.offset + r.length) = r.length := by
        rw [hoffr, Nat.zero_add]
        exact u32_eq_of_lt hlen32
      rw [he]
      obtain ⟨g1, g2, g3⟩ := assignOffsets_go_spec mask rest r.length
        (fun r2 h2 => hpow r2 (List.mem_cons_of_mem _ h2)) (by omega)
      refine ⟨?_, ?_⟩
      · intro r2 h2 hm2
        rcases List.mem_cons.mp h2 with h3 | h3
        · subst h3; rw [hoffr]; exact Nat.dvd_zero _
        · exact g1 r2 h3 hm2
      · simp only [List.filter_cons, hm, ite_true]
        rw [List.chain'_cons']
        refine ⟨?_, g2⟩
        intro b hb
        have := g3 b (Option.mem_def.mp hb)
        show r.offset + r.length ≤ b.offset
        omega
    · rw [if_neg hm]
      have hmf : nodeMatches r mask = false := by simpa using hm
      have hfsum : (List.filter (fun r => nodeMatches r mask) (r :: rest)) =
          List.filter (fun r => nodeMatches r mask) rest := by
        simp [List.filter_cons, hmf]
      rw [hfsum] at hbound
      obtain ⟨ih1, ih2⟩ := ih (fun r2 h2 => hoff r2 (List.mem_cons_of_mem _ h2))
        (fun r2 h2 => hpow r2 (List.mem_cons_of_mem _ h2)) hbound
      refine ⟨?_, ?_⟩
      · intro r2 h2 hm2
        rcases List.mem_cons.mp h2 with h3 | h3
        · subst h3; rw [hmf] at hm2; exact Bool.noConfusion hm2
        · exact ih1 r2 h3 hm2
      · simp only [List.filter_cons, hmf, Bool.false_eq_true, ite_false]
        exact ih2

/-- C3: after the per-bridge alignment pass (`AlignResourceTree` body: sort,
then assign offsets to the memory-class nodes, then to the I/O-class nodes),
provided every node's offset starts at 0, every node length is a power of two,
and twice the total length sum fits in 32 bits, every node's offset is a
multiple of its length, and within each class (memory, I/O) consecutive nodes
do not overlap: each node's `offset + length` is at most the next node's
offset.  The power-of-two hypothesis is necessary: the `&(Length-1)` alignment
step in the C code is only a correct alignment for power-of-two lengths. -/
theorem alignBridgeResources_aligned_sorted (l : List PeiResourceNode)
    (hoff : ∀ r ∈ l, r.offset = 0)
    (hpow : ∀ r ∈ l, ∃ k, r.length = 2 ^ k)
    (hbound : 2 * (l.map PeiResourceNode.length).sum < 4294967296) :
    (∀ r ∈ alignBridgeResources l, r.length ∣ r.offset) ∧
    List.Chain' (fun a b => a.offset + a.length ≤ b.offset)
      ((alignBridgeResources l).filter (fun r => nodeMatches r memMask)) ∧
    List.Chain' (fun a b => a.offset + a.length ≤ b.offset)
      ((alignBridgeResources l).filter (fun r => nodeMatches r ioMask)) := by
  have hperm := bridgeSortResourceList_perm l
  have hoffS : ∀ r ∈ bridgeSortResourceList l, r.offset = 0 :=
    fun r h => hoff r (hperm.mem_iff.mp h)
  have hpowS : ∀ r ∈ bridgeSortResourceList l, ∃ k, r.length = 2 ^ k :=
    fun r h => hpow r (hperm.mem_iff.mp h)
  have hsumS : ((bridgeSortResourceList l).map PeiResourceNode.length).sum =
      (l.map PeiResourceNode.length).sum :=
    (hperm.map _).sum_eq
  have hboundMem : 2 * (((bridgeSortResourceList l).filter
      (fun r => nodeMatches r memMask)).map PeiResourceNode.length).sum <
      4294967296 := by
    have := sum_filter_le (fun r => nodeMatches r memMask) (bridgeSortResourceList l)
    omega
  obtain ⟨m1, m2⟩ := assignOffsets_none_spec memMask (bridgeSortResourceList l)
    (fun r h _ => hoffS r h) (fun r h _ => hpowS r h) hboundMem
  have hmemOut : ∀ r ∈ assignOffsets memMask none (bridgeSortResourceList l),
      nodeMatches r ioMask = true → r ∈ l := by
    intro r h hio
    exact hperm.mem_iff.mp
      (assignOffsets_mem_of_not_matching _ _ r h (ioMatch_not_memMatch hio))
  have hboundIo : 2 * (((assignOffsets memMask none
      (bridgeSortResourceList l)).filter
      (fun r => nodeMatches r ioMask)).map PeiResourceNode.length).sum <
      4294967296 := by
    rw [assignOffsets_filter_other (fun r h => ioMatch_not_memMatch h)]
    have h1 : (((bridgeSortResourceList l).filter
        (fun r => nodeMatches r ioMask)).map PeiResourceNode.length).sum =
        ((l.filter (fun r => nodeMatches r ioMask)).map PeiResourceNode.length).sum :=
      ((hperm.filter _).map _).sum_eq
    have h2 := sum_filter_le (fun r => nodeMatches r ioMask) l
    omega
  obtain ⟨i1, i2⟩ := assignOffsets_none_spec ioMask
    (assignOffsets memMask none (bridgeSortResourceList l))
    (fun r h hio => hoff r (hmemOut r h hio))
    (fun r h hio => hpow r (hmemOut r h hio))
    hboundIo
  refine ⟨?_, ?_, ?_⟩
  · intro r h
    rcases match_io_or_mem r with hio | hmem
    · exact i1 r h hio
    · have h2 : r ∈ assignOffsets memMask none (bridgeSortResourceList l) :=
        assignOffsets_mem_of_not_matching _ _ r h (memMatch_not_ioMatch hmem)
      exact m1 r h2 hmem
  · show List.Chain' _ ((assignOffsets ioMask none
      (assignOffsets memMask none (bridgeSortResourceList l))).filter
        (fun r => nodeMatches r memMask))
    rw [assignOffsets_filter_other (fun r h => memMatch_not_ioMatch h)]
    exact m2
  · exact i2

/-- C3 counterexample: on a list whose aperture length `0x300000` is not a
power of two, the alignment pass of `AlignResourceTree` assigns the aperture
offset `0x400000`, which is not a multiple of its length — the claim's
divisibility property fails without the power-of-two restriction. -/
theorem alignBridge_divisibility_cx :
    alignBridgeResources c3CxList =
      [⟨0, 4194304, 0, 0, c3CxDev, .memRes⟩,
       ⟨0, 3145728, 4194304, 0, c3CxDev, .memAp⟩] ∧
    ¬ (∀ r ∈ alignBridgeResources c3CxList, r.length ∣ r.offset) :=
  ⟨by decide, by decide⟩

/-- Witness instantiating `alignBridgeResources_aligned_sorted` on a concrete
single-node list. -/
theorem alignBridgeResources_aligned_sorted_witness :
    (∀ r ∈ c3WitList, r.offset = 0) ∧
    (∀ r ∈ c3WitList, ∃ k, r.length = 2 ^ k) ∧
    2 * (c3WitList.map PeiResourceNode.length).sum < 4294967296 ∧
    ((∀ r ∈ alignBridgeResources c3WitList, r.length ∣ r.offset) ∧
      List.Chain' (fun a b => a.offset + a.length ≤ b.offset)
        ((alignBridgeResources c3WitList).filter (fun r => nodeMatches r memMask)) ∧
      List.Chain' (fun a b => a.offset + a.length ≤ b.offset)
        ((alignBridgeResources c3WitList).filter (fun r => nodeMatches r ioMask))) := by
  have hoffW : ∀ r ∈ c3WitList, r.offset = 0 := by decide
  have hpowW : ∀ r ∈ c3WitList, ∃ k, r.length = 2 ^ k := by
    intro r h
    simp only [c3WitList, List.mem_singleton] at h
    subst h
    exact ⟨2, rfl⟩
  exact ⟨hoffW, hpowW, by decide,
    alignBridgeResources_aligned_sorted c3WitList hoffW hpowW (by decide)⟩

theorem probeBars_abandoned (sbdf : SBDF) (l : List Nat) (st : ProbeSt)
    (h : st.abandoned = true) : probeBars sbdf l st = st := by
  cases l with
  | nil => rfl
  | cons i rest => rw [probeBars, if_pos h]

/-- C2: handling of 64-bit memory BARs during resource discovery.  For a
function whose BAR `i` is implemented, is a memory BAR with bit2 set, and
probes to a size larger than `SIZE_2GB`, the device is abandoned: the step
sets the abandonment flag, removes every resource node of this device from
the bridge list being built, and the BAR loop performs no further work; the
function is still registered, with a zeroed supports mask, and the function
loop continues with the remaining functions.  When the probed size is at most
`SIZE_2GB`, the step instead sets `SkipNextBar`, records the BAR as a
resource, and the next loop iteration only clears the flag (the upper-half
BAR index is neither probed nor given a node). -/
theorem bar64_probe_spec (sbdf : SBDF) (st : ProbeSt) (i : Nat)
    (hskip : st.skip = false) :
    (trig64Big (st.cfg sbdf.bdf) i →
      (probeStep sbdf st i).abandoned = true ∧
      (probeStep sbdf st i).list = st.list.filter (fun r => r.device != sbdf) ∧
      ∀ rest : List Nat, probeBars sbdf rest (probeStep sbdf st i) = probeStep sbdf st i) ∧
    (trig64Small (st.cfg sbdf.bdf) i →
      (probeStep sbdf st i).skip = true ∧
      (probeStep sbdf st i).list = st.list ++
        [⟨i, memBarSize ((st.cfg sbdf.bdf).probe i), 0,
          sub32 (memBarSize ((st.cfg sbdf.bdf).probe i)) 1, sbdf, .memRes⟩] ∧
      probeStep sbdf (probeStep sbdf st i) (i + 1) =
        { probeStep sbdf st i with skip := false }) ∧
    (∀ (recur : Nat → (BDF → FnState) → EnumSt) (seg bus dev func : Nat) (est : EnumSt),
      ((est.cfg ⟨seg, bus, dev, func⟩).isBridge ||
          (est.cfg ⟨seg, bus, dev, func⟩).essential) = true →
      isDeviceDecodingResources (est.cfg ⟨seg, bus, dev, func⟩) = false →
      (est.cfg ⟨seg, bus, dev, func⟩).isBridge = false →
      (probeFunction est.cfg
        ⟨seg, bus, dev, func, (est.cfg ⟨seg, bus, dev, func⟩).pcieCap⟩ 5
        est.list).abandoned = true →
      processFunction recur seg bus dev func est =
        { cfg := (probeFunction est.cfg
            ⟨seg, bus, dev, func, (est.cfg ⟨seg, bus, dev, func⟩).pcieCap⟩ 5
            est.list).cfg,
          list := (probeFunction est.cfg
            ⟨seg, bus, dev, func, (est.cfg ⟨seg, bus, dev, func⟩).pcieCap⟩ 5
            est.list).list,
          endpoints := est.endpoints ++
            [(⟨seg, bus, dev, func, (est.cfg ⟨seg, bus, dev, func⟩).pcieCap⟩, 0)],
          devices := est.devices ++
            [(⟨seg, bus, dev, func, (est.cfg ⟨seg, bus, dev, func⟩).pcieCap⟩, 0)],
          subNodes := est.subNodes }) ∧
    (∀ (recur : Nat → (BDF → FnState) → EnumSt) (seg bus dev f : Nat)
        (rest : List Nat) (est : EnumSt),
      (est.cfg ⟨seg, bus, dev, f⟩).present = true →
      ((processFunction recur seg bus dev f est).cfg ⟨seg, bus, dev, f⟩).multiFn = true →
      enumFuncs recur seg bus dev (f :: rest) est =
        enumFuncs recur seg bus dev rest (processFunction recur seg bus dev f est)) := by
  refine ⟨?_, ?_, ?_, ?_⟩
  · intro hbig
    obtain ⟨h1, h2, h3, h4⟩ := hbig
    have hstep : probeStep sbdf st i =
        { st with cfg := setBarReg st.cfg sbdf.bdf i, probed := st.probed ++ [i],
                  abandoned := true,
                  list := st.list.filter (fun r => r.device != sbdf) } := by
      rw [probeStep]
      rw [if_neg (by rw [hskip]; exact Bool.false_ne_true)]
      dsimp only
      rw [if_neg h1]
      rw [if_neg (by rw [h2]; exact fun h => h rfl)]
      rw [if_pos h3]
      rw [if_neg (by omega)]
    rw [hstep]
    exact ⟨rfl, rfl, fun rest => probeBars_abandoned sbdf rest _ rfl⟩
  · intro hsmall
    obtain ⟨h1, h2, h3, h4⟩ := hsmall
    have hstep : probeStep sbdf st i =
        { st with cfg := setBarReg st.cfg sbdf.bdf i, probed := st.probed ++ [i],
                  skip := true,
                  list := st.list ++
                    [⟨i, memBarSize ((st.cfg sbdf.bdf).probe i), 0,
                      sub32 (memBarSize ((st.cfg sbdf.bdf).probe i)) 1, sbdf, .memRes⟩] } := by
      rw [probeStep]
      rw [if_neg (by rw [hskip]; exact Bool.false_ne_true)]
      dsimp only
      rw [if_neg h1]
      rw [if_neg (by rw [h2]; exact fun h => h rfl)]
      rw [if_pos h3]
      rw [if_pos h4]
    rw [hstep]
    refine ⟨rfl, rfl, ?_⟩
    rw [probeStep]
    rw [if_pos rfl]
  · intro recur seg bus dev func est hclass hdec hbr hab
    rw [processFunction]
    rw [if_pos (by rw [hclass, hdec]; rfl)]
    rw [hbr]
    simp only [Bool.false_eq_true, if_false]
    rw [if_pos hab]
  · intro recur seg bus dev f rest est hpres hmf
    rw [enumFuncs]
    rw [if_pos hpres]
    rw [if_neg (by rintro ⟨hc, -⟩; rw [hmf] at hc; exact Bool.noConfusion hc)]

/-- Witness instantiating `bar64_probe_spec` at a concrete probe state whose
BAR 0 is a 64-bit BAR of probed size `0xC0000000`. -/
theorem bar64_probe_spec_witness :
    c2St.skip = false ∧
    trig64Big (c2St.cfg c2Sbdf.bdf) 0 ∧
    ((trig64Big (c2St.cfg c2Sbdf.bdf) 0 →
      (probeStep c2Sbdf c2St 0).abandoned = true ∧
      (probeStep c2Sbdf c2St 0).list = c2St.list.filter (fun r => r.device != c2Sbdf) ∧
      ∀ rest : List Nat,
        probeBars c2Sbdf rest (probeStep c2Sbdf c2St 0) = probeStep c2Sbdf c2St 0) ∧
    (trig64Small (c2St.cfg c2Sbdf.bdf) 0 →
      (probeStep c2Sbdf c2St 0).skip = true ∧
      (probeStep c2Sbdf c2St 0).list = c2St.list ++
        [⟨0, memBarSize ((c2St.cfg c2Sbdf.bdf).probe 0), 0,
          sub32 (memBarSize ((c2St.cfg c2Sbdf.bdf).probe 0)) 1, c2Sbdf, .memRes⟩] ∧
      probeStep c2Sbdf (probeStep c2Sbdf c2St 0) (0 + 1) =
        { probeStep c2Sbdf c2St 0 with skip := false }) ∧
    (∀ (recur : Nat → (BDF → FnState) → EnumSt) (seg bus dev func : Nat) (est : EnumSt),
      ((est.cfg ⟨seg, bus, dev, func⟩).isBridge ||
          (est.cfg ⟨seg, bus, dev, func⟩).essential) = true →
      isDeviceDecodingResources (est.cfg ⟨seg, bus, dev, func⟩) = false →
      (est.cfg ⟨seg, bus, dev, func⟩).isBridge = false →
      (probeFunction est.cfg
        ⟨seg, bus, dev, func, (est.cfg ⟨seg, bus, dev, func⟩).pcieCap⟩ 5
        est.list).abandoned = true →
      processFunction recur seg bus dev func est =
        { cfg := (probeFunction est.cfg
            ⟨seg, bus, dev, func, (est.cfg ⟨seg, bus, dev, func⟩).pcieCap⟩ 5
            est.list).cfg,
          list := (probeFunction est.cfg
            ⟨seg, bus, dev, func, (est.cfg ⟨seg, bus, dev, func⟩).pcieCap⟩ 5
            est.list).list,
          endpoints := est.endpoints ++
            [(⟨seg, bus, dev, func, (est.cfg ⟨seg, bus, dev, func⟩).pcieCap⟩, 0)],
          devices := est.devices ++
            [(⟨seg, bus, dev, func, (est.cfg ⟨seg, bus, dev, func⟩).pcieCap⟩, 0)],
          subNodes := est.subNodes }) ∧
    (∀ (recur : Nat → (BDF → FnState) → EnumSt) (seg bus dev f : Nat)
        (rest : List Nat) (est : EnumSt),
      (est.cfg ⟨seg, bus, dev, f⟩).present = true →
      ((processFunction recur seg bus dev f est).cfg ⟨seg, bus, dev, f⟩).multiFn = true →
      enumFuncs recur seg bus dev (f :: rest) est =
        enumFuncs recur seg bus dev rest (processFunction recur seg bus dev f est))) :=
  ⟨rfl, by unfold trig64Big; decide, bar64_probe_spec c2Sbdf c2St 0 rfl⟩

theorem setBarReg_ne (cfg : BDF → FnState) (b : BDF) (i : Nat) (f : BDF)
    (hne : f ≠ b) : setBarReg cfg b i f = cfg f := by
  rw [setBarReg, if_neg hne]

theorem probeStep_frame (f : BDF) (sbdf : SBDF) (st : ProbeSt) (i : Nat)
    (hne : f ≠ sbdf.bdf) :
    (probeStep sbdf st i).cfg f = st.cfg f ∧
    ∀ r ∈ (probeStep sbdf st i).list, r ∈ st.list ∨ r.device = sbdf := by
  have hset := setBarReg_ne st.cfg sbdf.bdf i f hne
  rw [probeStep]
  dsimp only
  split_ifs with h1 h2 h3 h4 h5 <;> refine ⟨by simp [hset], ?_⟩ <;> intro r hr
  · exact Or.inl hr
  · exact Or.inl hr
  · rcases List.mem_append.mp hr with h | h
    · exact Or.inl h
    · right; rw [List.mem_singleton.mp h]
  · rcases List.mem_append.mp hr with h | h
    · exact Or.inl h
    · right; rw [List.mem_singleton.mp h]
  · exact Or.inl (List.mem_of_mem_filter hr)
  · rcases List.mem_append.mp hr with h | h
    · exact Or.inl h
    · right; rw [List.mem_singleton.mp h]

theorem probeBars_frame (f : BDF) (sbdf : SBDF) (hne : f ≠ sbdf.bdf) :
    ∀ (l : List Nat) (st : ProbeSt),
      (probeBars sbdf l st).cfg f = st.cfg f ∧
      ∀ r ∈ (probeBars sbdf l st).list, r ∈ st.list ∨ r.device = sbdf := by
  intro l
  induction l with
  | nil => intro st; exact ⟨rfl, fun r hr => Or.inl hr⟩
  | cons i rest ih =>
    intro st
    rw [probeBars]
    split_ifs with hab
    · exact ⟨rfl, fun r hr => Or.inl hr⟩
    · obtain ⟨s1, s2⟩ := probeStep_frame f sbdf st i hne
      obtain ⟨b1, b2⟩ := ih (probeStep sbdf st i)
      refine ⟨by rw [b1, s1], ?_⟩
      intro r hr
      rcases b2 r hr with h | h
      · exact s2 r h
      · exact Or.inr h

theorem processFunction_frame (f : BDF)
    (recur : Nat → (BDF → FnState) → EnumSt)
    (hrec : ∀ (sb : Nat) (c : BDF → FnState), (c f).command &&& 3 ≠ 0 →
      (recur sb c).cfg f = c f ∧
      ∀ r ∈ (recur sb c).list ++ (recur sb c).subNodes, r.device.bdf ≠ f)
    (seg bus dev func : Nat) (st : EnumSt)
    (hcmd : (st.cfg f).command &&& 3 ≠ 0) :
    (processFunction recur seg bus dev func st).cfg f = st.cfg f ∧
    ∀ r ∈ (processFunction recur seg bus dev func st).list ++
        (processFunction recur seg bus dev func st).subNodes,
      r ∈ st.list ++ st.subNodes ∨ r.device.bdf ≠ f := by
  by_cases hb : (⟨seg, bus, dev, func⟩ : BDF) = f
  · have hdec : isDeviceDecodingResources (st.cfg ⟨seg, bus, dev, func⟩) = true := by
      rw [hb]
      simp only [isDeviceDecodingResources]
      exact decide_eq_true hcmd
    rw [processFunction]
    dsimp only
    rw [if_neg (by rw [hdec]; simp)]
    exact ⟨rfl, fun r hr => Or.inl hr⟩
  · have hne : f ≠ (⟨seg, bus, dev, func⟩ : BDF) := fun h => hb h.symm
    rw [processFunction]
    dsimp only
    by_cases hg : (((st.cfg ⟨seg, bus, dev, func⟩).isBridge ||
        (st.cfg ⟨seg, bus, dev, func⟩).essential) &&
        !isDeviceDecodingResources (st.cfg ⟨seg, bus, dev, func⟩)) = true
    · rw [if_pos hg]
      cases hbr : (st.cfg ⟨seg, bus, dev, func⟩).isBridge with
      | true =>
        simp only [hbr, reduceIte]
        rw [probeFunction]
        obtain ⟨p1, p2⟩ := probeBars_frame f
          ⟨seg, bus, dev, func, (st.cfg ⟨seg, bus, dev, func⟩).pcieCap⟩ hne
          (List.range (1 + 1)) ⟨st.cfg, st.list, false, [], false⟩
        have hcmd2 : ((probeBars ⟨seg, bus, dev, func,
            (st.cfg ⟨seg, bus, dev, func⟩).pcieCap⟩ (List.range (1 + 1))
            ⟨st.cfg, st.list, false, [], false⟩).cfg f).command &&& 3 ≠ 0 := by
          rw [p1]; exact hcmd
        obtain ⟨c1, c2⟩ := hrec ((probeBars ⟨seg, bus, dev, func,
            (st.cfg ⟨seg, bus, dev, func⟩).pcieCap⟩ (List.range (1 + 1))
            ⟨st.cfg, st.list, false, [], false⟩).cfg
            ⟨seg, bus, dev, func⟩).secBus
          (probeBars ⟨seg, bus, dev, func,
            (st.cfg ⟨seg, bus, dev, func⟩).pcieCap⟩ (List.range (1 + 1))
            ⟨st.cfg, st.list, false, [], false⟩).cfg hcmd2
        refine ⟨by rw [c1, p1], ?_⟩
        intro r hr
        rcases List.mem_append.mp hr with h | h
        · rcases p2 r h with h2 | h2
          · exact Or.inl (List.mem_append_left _ h2)
          · exact Or.inr (by rw [h2]; exact fun hx => hne hx.symm)
        · rcases List.mem_append.mp h with h2 | h2
          · rcases List.mem_append.mp h2 with h3 | h3
            · exact Or.inl (List.mem_append_right _ h3)
            · exact Or.inr (c2 r (List.mem_append_left _ h3))
          · exact Or.inr (c2 r (List.mem_append_right _ h2))
      | false =>
        simp only [Bool.false_eq_true, if_false]
        rw [probeFunction]
        obtain ⟨p1, p2⟩ := probeBars_frame f
          ⟨seg, bus, dev, func, (st.cfg ⟨seg, bus, dev, func⟩).pcieCap⟩ hne
          (List.range (5 + 1)) ⟨st.cfg, st.list, false, [], false⟩
        refine ⟨p1, ?_⟩
        intro r hr
        rcases List.mem_append.mp hr with h | h
        · rcases p2 r h with h2 | h2
          · exact Or.inl (List.mem_append_left _ h2)
          · exact Or.inr (by rw [h2]; exact fun hx => hne hx.symm)
        · exact Or.inl (List.mem_append_right _ h)
    · rw [if_neg hg]
      exact ⟨rfl, fun r hr => Or.inl hr⟩

theorem enumFuncs_frame (f : BDF)
    (recur : Nat → (BDF → FnState) → EnumSt)
    (hrec : ∀ (sb : Nat) (c : BDF → FnState), (c f).command &&& 3 ≠ 0 →
      (recur sb c).cfg f = c f ∧
      ∀ r ∈ (recur sb c).list ++ (recur sb c).subNodes, r.device.bdf ≠ f)
    (seg bus dev : Nat) :
    ∀ (fl : List Nat) (st : EnumSt), (st.cfg f).command &&& 3 ≠ 0 →
      (enumFuncs recur seg bus dev fl st).cfg f = st.cfg f ∧
      ∀ r ∈ (enumFuncs recur seg bus dev fl st).list ++
          (enumFuncs recur seg bus dev fl st).subNodes,
        r ∈ st.list ++ st.subNodes ∨ r.device.bdf ≠ f := by
  intro fl
  induction fl with
  | nil => intro st _; exact ⟨rfl, fun r hr => Or.inl hr⟩
  | cons fc rest ih =>
    intro st hcmd
    rw [enumFuncs]
    dsimp only
    by_cases hp : (st.cfg ⟨seg, bus, dev, fc⟩).present = true
    · rw [if_pos hp]
      obtain ⟨q1, q2⟩ := processFunction_frame f recur hrec seg bus dev fc st hcmd
      by_cases hmf : ((processFunction recur seg bus dev fc st).cfg
          ⟨seg, bus, dev, fc⟩).multiFn = false ∧ fc = 0
      · rw [if_pos hmf]
        exact ⟨q1, q2⟩
      · rw [if_neg hmf]
        obtain ⟨e1, e2⟩ := ih (processFunction recur seg bus dev fc st)
          (by rw [q1]; exact hcmd)
        refine ⟨e1.trans q1, ?_⟩
        intro r hr
        rcases e2 r hr with h | h
        · exact q2 r h
        · exact Or.inr h
    · rw [if_neg hp]
      by_cases h0 : fc = 0
      · rw [if_pos h0]; exact ⟨rfl, fun r hr => Or.inl hr⟩
      · rw [if_neg h0]; exact ih st hcmd

theorem enumDevs_frame (f : BDF)
    (recur : Nat → (BDF → FnState) → EnumSt)
    (hrec : ∀ (sb : Nat) (c : BDF → FnState), (c f).command &&& 3 ≠ 0 →
      (recur sb c).cfg f = c f ∧
      ∀ r ∈ (recur sb c).list ++ (recur sb c).subNodes, r.device.bdf ≠ f)
    (seg bus : Nat) :
    ∀ (dl : List Nat) (st : EnumSt), (st.cfg f).command &&& 3 ≠ 0 →
      (enumDevs recur seg bus dl st).cfg f = st.cfg f ∧
      ∀ r ∈ (enumDevs recur seg bus dl st).list ++
          (enumDevs recur seg bus dl st).subNodes,
        r ∈ st.list ++ st.subNodes ∨ r.device.bdf ≠ f := by
  intro dl
  induction dl with
  | nil => intro st _; exact ⟨rfl, fun r hr => Or.inl hr⟩
  | cons d rest ih =>
    intro st hcmd
    rw [enumDevs]
    obtain ⟨q1, q2⟩ := enumFuncs_frame f recur hrec seg bus d (List.range 8) st hcmd
    obtain ⟨e1, e2⟩ := ih (enumFuncs recur seg bus d (List.range 8) st)
      (by rw [q1]; exact hcmd)
    refine ⟨e1.trans q1, ?_⟩
    intro r hr
    rcases e2 r hr with h | h
    · exact q2 r h
    · exact Or.inr h

/-- C9: a function that is already decoding on entry (its command register
has the I/O-space or memory-space enable bit set) is left untouched by
bridge enumeration: its whole configuration state — BARs and command
register included — is unchanged afterwards, and no resource node owned by
it appears in the bridge's resource list or in any descendant bridge's
list. -/
theorem enum_decoding_untouched :
    ∀ (fuel seg secBus : Nat) (cfg : BDF → FnState) (f : BDF),
      (cfg f).command &&& 3 ≠ 0 →
      (enumerateBridgeResources fuel seg secBus cfg).cfg f = cfg f ∧
      ∀ r ∈ (enumerateBridgeResources fuel seg secBus cfg).list ++
          (enumerateBridgeResources fuel seg secBus cfg).subNodes,
        r.device.bdf ≠ f := by
  intro fuel
  induction fuel with
  | zero =>
    intro seg secBus cfg f _
    exact ⟨rfl, by simp [enumerateBridgeResources]⟩
  | succ m ih =>
    intro seg secBus cfg f hcmd
    rw [enumerateBridgeResources]
    obtain ⟨d1, d2⟩ := enumDevs_frame f
      (fun sb c => enumerateBridgeResources m seg sb c)
      (fun sb c h => ih seg sb c f h) seg secBus (List.range 32)
      ⟨cfg, [], [], [], []⟩ hcmd
    refine ⟨d1, ?_⟩
    intro r hr
    rcases d2 r hr with h | h
    · exact absurd h (by simp)
    · exact h

/-- Witness instantiating `enum_decoding_untouched` on a concrete
configuration space whose function 0:0:0:0 is already decoding. -/
theorem enum_decoding_untouched_witness :
    (c9Cfg c9F).command &&& 3 ≠ 0 ∧
    ((enumerateBridgeResources 1 0 0 c9Cfg).cfg c9F = c9Cfg c9F ∧
     ∀ r ∈ (enumerateBridgeResources 1 0 0 c9Cfg).list ++
         (enumerateBridgeResources 1 0 0 c9Cfg).subNodes,
       r.device.bdf ≠ c9F) :=
  ⟨by decide, enum_decoding_untouched 1 0 0 c9Cfg c9F (by decide)⟩
